import Mathlib

/-
Verification of the matrix-exponential engine (src/linalg/exp.rs) and of the
sparse dimension-compatibility checks (nalgebra-sparse/src/ops/serial/mod.rs)
of the nalgebra linear-algebra library.

Modelling conventions, following the specification of the library:
* The scalar type `N : RealField` is embedded as an abstract linear ordered
  field with a floor/ceiling structure.  The transcendental collaborator
  operations of the scalar type (`powf`, `log2`, the scalar exponential) are
  collected in a `ScalarOps` bundle, since the specification treats the
  scalar field traits as external collaborators.  Exact literal conversions
  (`convert(120.0)`, `convert(4.25)`, the Pade thresholds, and powers of two
  such as `2_f64.powf(-53.0)` or `2.0_f64.powf(-s)`) are embedded as exact
  rational constants and exact integer powers of two.
* Dense matrices are `Matrix (Fin n) (Fin n) N`; matrix addition,
  subtraction, multiplication, scalar multiplication, transpose and the
  identity are the collaborator operations of the dense matrix abstraction.
* Machine integers `u128` are embedded as `Nat` with explicit `% 2 ^ 128`
  where the Rust arithmetic wraps.
* Fallible code returns `Option`: a panic (assertion failure, `unwrap` of a
  failed solve, out-of-bounds index) is `none`.
-/

set_option linter.unusedSectionVars false

namespace Nalg

variable {N : Type} [LinearOrderedField N] [FloorRing N]

/-- The scalar collaborator operations used by the exponential engine: the
floating-point power `powf`, base-two logarithm `log2` and scalar
exponential.  The specification lists these under collaborator interfaces
consumed, so they are parameters of the embedding. -/
structure ScalarOps (N : Type) where
  powf : N → N → N
  log2 : N → N
  expScalar : N → N

/-- Square matrices of dimension `n` over the scalar type, the shape of
`MatrixN<N, D>` in the source. -/
abbrev Mat (N : Type) (n : ℕ) := Matrix (Fin n) (Fin n) N

/-- Elementwise absolute value, the collaborator method `a.abs()` used by
`ell`. -/
def matAbs {n : ℕ} (a : Mat N n) : Mat N n := Matrix.of fun i j => |a i j|

/-- Sum of the absolute values of one column, the accumulation
`col.iter().for_each(|v| col_sums[i] += v.abs())` of `one_norm`. -/
def colSum {n : ℕ} (m : Mat N n) (j : Fin n) : N := ∑ i, |m i j|

/-- Translation of `one_norm` (exp.rs lines 382 to 398): per-column absolute
sums, then a running maximum seeded with `col_sums[0]` and folded over the
remaining columns.  The seed `col_sums[0]` indexes the first column, so the
function requires at least one column; on a 0-dimensional matrix the source
panics with an out-of-bounds index, which is why the dimension here is a
successor. -/
def one_norm {n : ℕ} (m : Mat N (n + 1)) : N :=
  List.foldl (fun mx j => max mx (colSum m j)) (colSum m 0) (List.finRange (n + 1)).tail

/-- Modelled from the spec: the dense vector collaborator method `v.max()`
(not under src/), described as returning the maximum resulting component of
the vector. -/
def vecMax {n : ℕ} (v : Fin (n + 1) → N) : N :=
  Finset.univ.sup' Finset.univ_nonempty v

/-- Translation of `onenorm_matrix_power_nonm` (exp.rs lines 322 to 338): a
ones vector is multiplied `p` times by the transpose of `a`, and the maximum
component of the result is returned. -/
def onenorm_matrix_power_nonm {n : ℕ} (a : Mat N (n + 1)) (p : ℕ) : N :=
  vecMax ((fun v => Matrix.mulVec a.transpose v)^[p] (fun _ => (1 : N)))

/-- The modulus of `u128` arithmetic. -/
def u128Mod : ℕ := 2 ^ 128

/-- Translation of the recursive `factorial` (exp.rs lines 315 to 320) on
`u128`: base case `n == 1`, recursive case `n * factorial(n - 1)` with
wrapping subtraction and multiplication.  The Rust recursion is not
structurally decreasing (at `n = 0` the subtraction `n - 1` wraps to
`2 ^ 128 - 1`), so the embedding carries explicit fuel; exhausted fuel is
`none`. -/
def factU : ℕ → ℕ → Option ℕ
  | 0, _ => none
  | fuel + 1, n =>
    if n = 1 then some 1
    else (factU fuel ((n + (u128Mod - 1)) % u128Mod)).map fun r => n * r % u128Mod

/-- A call `factorial(n)` of the source, given fuel `n + 1`, which is enough
for every `n ≥ 1` (the recursion then takes exactly `n` frames) and runs out
for `n = 0` (where the source recursion restarts from `2 ^ 128 - 1`). -/
def factorial (n : ℕ) : Option ℕ := factU (n + 1) n

/-- The combinatorial coefficient pipeline of `ell` (exp.rs lines 354 to
356), in wrapping `u128` arithmetic:
`choose_2m_m = factorial(2m) / (factorial(m) * factorial(2m - m))` and
`abs_c_recip = choose_2m_m * factorial(2m + 1)`. -/
def absCRecipU128 (m : ℕ) : Option ℕ :=
  match factorial (2 * m), factorial m, factorial (2 * m - m), factorial (2 * m + 1) with
  | some f2m, some fm, some fmm, some f2m1 =>
    some (f2m / (fm * fmm % u128Mod) * f2m1 % u128Mod)
  | _, _, _, _ => none

/-- Translation of `ell` (exp.rs lines 340 to 368).  The estimated 1-norm of
`|A| ^ (2m + 1)` is computed first and `0` is returned immediately when it is
zero; otherwise `alpha` is divided by the `u128` coefficient and by
`u = 2 ^ (-53)`, the base-two logarithm is taken, divided by `2m`, rounded
up, and clamped to a minimum of `0`.  The `f64` round-off of the source
conversion `abs_c_recip as f64` is abstracted to the exact value. -/
def ell (ops : ScalarOps N) {n : ℕ} (a : Mat N (n + 1)) (m : ℕ) : Option ℕ :=
  let a_abs_onenorm := onenorm_matrix_power_nonm (matAbs a) (2 * m + 1)
  if a_abs_onenorm = 0 then some 0
  else
    (absCRecipU128 m).map fun (abs_c_recip : ℕ) =>
      let alpha := a_abs_onenorm / one_norm a
      let alphaDiv := alpha / (abs_c_recip : N)
      let u : N := (2 : N) ^ (-(53 : ℤ))
      let log2_alpha_div_u := ops.log2 (alphaDiv / u)
      let value : ℤ := ⌈log2_alpha_div_u / ((2 * m : ℕ) : N)⌉
      if 0 < value then value.toNat else 0

/-- Modelled from the spec: the dense LU solve collaborator
`q.lu().solve(&p)` (not under src/), specified as
`solve(rhs) -> Option<Matrix>` with `None` signaling singularity.  In exact
arithmetic the LU solve succeeds exactly on nonsingular `q`, returning the
unique solution of `q * x = p`, written here through the adjugate
formula. -/
def luSolve {n : ℕ} (q p : Mat N n) : Option (Mat N n) :=
  if q.det = 0 then none else some (q.det⁻¹ • (q.adjugate * p))

/-- Translation of `solve_p_q` (exp.rs lines 370 to 380): `p = u + v`,
`q = v - u`, then the LU solve; the source unwraps the result, so a failed
solve panics, which the caller of this embedding observes as `none`. -/
def solve_p_q {n : ℕ} (u v : Mat N n) : Option (Mat N n) :=
  let p := u + v
  let q := v - u
  luSolve q p

/-- Translation of the `ExpmPadeHelper` state (exp.rs lines 14 to 39): the
input matrix, an identity of the same shape, five lazily cached even powers
and eight lazily cached scalar norms (exact and approximate variants). -/
structure ExpmPadeHelper (N : Type) (n : ℕ) where
  use_exact_norm : Bool
  ident : Mat N n
  a : Mat N n
  a2 : Option (Mat N n)
  a4 : Option (Mat N n)
  a6 : Option (Mat N n)
  a8 : Option (Mat N n)
  a10 : Option (Mat N n)
  d4_exact : Option N
  d6_exact : Option N
  d8_exact : Option N
  d10_exact : Option N
  d4_approx : Option N
  d6_approx : Option N
  d8_approx : Option N
  d10_approx : Option N

namespace ExpmPadeHelper

/-- Translation of `ExpmPadeHelper::new` (exp.rs lines 47 to 67): all caches
empty, `ident` the identity of the shape of `a`. -/
def new {n : ℕ} (a : Mat N n) (use_exact_norm : Bool) : ExpmPadeHelper N n :=
  { use_exact_norm := use_exact_norm
    ident := 1
    a := a
    a2 := none, a4 := none, a6 := none, a8 := none, a10 := none
    d4_exact := none, d6_exact := none, d8_exact := none, d10_exact := none
    d4_approx := none, d6_approx := none, d8_approx := none, d10_approx := none }

/-
The source accessors mutate the helper through pointer aliasing; the
embedding threads the state explicitly, returning the accessed value
together with the updated helper.
-/

/-- Translation of `ExpmPadeHelper::a2` (exp.rs lines 69 to 77). -/
def a2Acc {n : ℕ} (h : ExpmPadeHelper N n) : Mat N n × ExpmPadeHelper N n :=
  match h.a2 with
  | some m => (m, h)
  | none =>
    let m := h.a * h.a
    (m, { h with a2 := some m })

/-- Translation of `ExpmPadeHelper::a4` (exp.rs lines 79 to 88):
`A4 = A2 * A2` on a cache miss. -/
def a4Acc {n : ℕ} (h : ExpmPadeHelper N n) : Mat N n × ExpmPadeHelper N n :=
  match h.a4 with
  | some m => (m, h)
  | none =>
    let (a2v, h1) := a2Acc h
    let m := a2v * a2v
    (m, { h1 with a4 := some m })

/-- Translation of `ExpmPadeHelper::a6` (exp.rs lines 90 to 100):
`A6 = A4 * A2` on a cache miss. -/
def a6Acc {n : ℕ} (h : ExpmPadeHelper N n) : Mat N n × ExpmPadeHelper N n :=
  match h.a6 with
  | some m => (m, h)
  | none =>
    let (a2v, h1) := a2Acc h
    let (a4v, h2) := a4Acc h1
    let m := a4v * a2v
    (m, { h2 with a6 := some m })

/-- Translation of `ExpmPadeHelper::a8` (exp.rs lines 102 to 112):
`A8 = A6 * A2` on a cache miss. -/
def a8Acc {n : ℕ} (h : ExpmPadeHelper N n) : Mat N n × ExpmPadeHelper N n :=
  match h.a8 with
  | some m => (m, h)
  | none =>
    let (a2v, h1) := a2Acc h
    let (a6v, h2) := a6Acc h1
    let m := a6v * a2v
    (m, { h2 with a8 := some m })

/-- Translation of `ExpmPadeHelper::a10` (exp.rs lines 114 to 124):
`A10 = A6 * A4` on a cache miss. -/
def a10Acc {n : ℕ} (h : ExpmPadeHelper N n) : Mat N n × ExpmPadeHelper N n :=
  match h.a10 with
  | some m => (m, h)
  | none =>
    let (a4v, h1) := a4Acc h
    let (a6v, h2) := a6Acc h1
    let m := a6v * a4v
    (m, { h2 with a10 := some m })

/-- Translation of `ExpmPadeHelper::d4_tight` (exp.rs lines 126 to 131):
`one_norm(A4) ^ 0.25`, cached in `d4_exact`. -/
def d4_tight {n : ℕ} (ops : ScalarOps N) (h : ExpmPadeHelper N (n + 1)) :
    N × ExpmPadeHelper N (n + 1) :=
  match h.d4_exact with
  | some v => (v, h)
  | none =>
    let (a4v, h1) := a4Acc h
    let v := ops.powf (one_norm a4v) ((0.25 : ℚ) : N)
    (v, { h1 with d4_exact := some v })

/-- Translation of `ExpmPadeHelper::d6_tight` (exp.rs lines 133 to 138). -/
def d6_tight {n : ℕ} (ops : ScalarOps N) (h : ExpmPadeHelper N (n + 1)) :
    N × ExpmPadeHelper N (n + 1) :=
  match h.d6_exact with
  | some v => (v, h)
  | none =>
    let (a6v, h1) := a6Acc h
    let v := ops.powf (one_norm a6v) ((1 / 6 : ℚ) : N)
    (v, { h1 with d6_exact := some v })

/-- Translation of `ExpmPadeHelper::d8_tight` (exp.rs lines 140 to 145). -/
def d8_tight {n : ℕ} (ops : ScalarOps N) (h : ExpmPadeHelper N (n + 1)) :
    N × ExpmPadeHelper N (n + 1) :=
  match h.d8_exact with
  | some v => (v, h)
  | none =>
    let (a8v, h1) := a8Acc h
    let v := ops.powf (one_norm a8v) ((1 / 8 : ℚ) : N)
    (v, { h1 with d8_exact := some v })

/-- Translation of `ExpmPadeHelper::d10_tight` (exp.rs lines 147 to 152). -/
def d10_tight {n : ℕ} (ops : ScalarOps N) (h : ExpmPadeHelper N (n + 1)) :
    N × ExpmPadeHelper N (n + 1) :=
  match h.d10_exact with
  | some v => (v, h)
  | none =>
    let (a10v, h1) := a10Acc h
    let v := ops.powf (one_norm a10v) ((1 / 10 : ℚ) : N)
    (v, { h1 with d10_exact := some v })

/-- Translation of `ExpmPadeHelper::d4_loose` (exp.rs lines 154 to 168):
tight when `use_exact_norm` is set, the exact cache when one exists,
otherwise the approximate variant (which in this source computes the same
expression as the tight one). -/
def d4_loose {n : ℕ} (ops : ScalarOps N) (h : ExpmPadeHelper N (n + 1)) :
    N × ExpmPadeHelper N (n + 1) :=
  if h.use_exact_norm then d4_tight ops h
  else
    match h.d4_exact with
    | some v => (v, h)
    | none =>
      match h.d4_approx with
      | some v => (v, h)
      | none =>
        let (a4v, h1) := a4Acc h
        let v := ops.powf (one_norm a4v) ((0.25 : ℚ) : N)
        (v, { h1 with d4_approx := some v })

/-- Translation of `ExpmPadeHelper::d6_loose` (exp.rs lines 170 to 184). -/
def d6_loose {n : ℕ} (ops : ScalarOps N) (h : ExpmPadeHelper N (n + 1)) :
    N × ExpmPadeHelper N (n + 1) :=
  if h.use_exact_norm then d6_tight ops h
  else
    match h.d6_exact with
    | some v => (v, h)
    | none =>
      match h.d6_approx with
      | some v => (v, h)
      | none =>
        let (a6v, h1) := a6Acc h
        let v := ops.powf (one_norm a6v) ((1 / 6 : ℚ) : N)
        (v, { h1 with d6_approx := some v })

/-- Translation of `ExpmPadeHelper::d8_loose` (exp.rs lines 186 to 200). -/
def d8_loose {n : ℕ} (ops : ScalarOps N) (h : ExpmPadeHelper N (n + 1)) :
    N × ExpmPadeHelper N (n + 1) :=
  if h.use_exact_norm then d8_tight ops h
  else
    match h.d8_exact with
    | some v => (v, h)
    | none =>
      match h.d8_approx with
      | some v => (v, h)
      | none =>
        let (a8v, h1) := a8Acc h
        let v := ops.powf (one_norm a8v) ((1 / 8 : ℚ) : N)
        (v, { h1 with d8_approx := some v })

/-- Translation of `ExpmPadeHelper::d10_loose` (exp.rs lines 202 to 216). -/
def d10_loose {n : ℕ} (ops : ScalarOps N) (h : ExpmPadeHelper N (n + 1)) :
    N × ExpmPadeHelper N (n + 1) :=
  if h.use_exact_norm then d10_tight ops h
  else
    match h.d10_exact with
    | some v => (v, h)
    | none =>
      match h.d10_approx with
      | some v => (v, h)
      | none =>
        let (a10v, h1) := a10Acc h
        let v := ops.powf (one_norm a10v) ((1 / 10 : ℚ) : N)
        (v, { h1 with d10_approx := some v })

/-- Translation of `ExpmPadeHelper::pade3` (exp.rs lines 218 to 223) with
coefficients `b = [120, 60, 12, 1]`:
`U = A * (A2 * b3 + I * b1)`, `V = A2 * b2 + I * b0`. -/
def pade3 {n : ℕ} (h : ExpmPadeHelper N n) :
    (Mat N n × Mat N n) × ExpmPadeHelper N n :=
  let (a2v, h1) := a2Acc h
  let u := h1.a * ((1 : N) • a2v + (60 : N) • h1.ident)
  let v := (12 : N) • a2v + (120 : N) • h1.ident
  ((u, v), h1)

/-- Translation of `ExpmPadeHelper::pade5` (exp.rs lines 225 to 237) with
coefficients `b = [30240, 15120, 3360, 420, 30, 1]`, the cached power
accesses threaded in source evaluation order. -/
def pade5 {n : ℕ} (h : ExpmPadeHelper N n) :
    (Mat N n × Mat N n) × ExpmPadeHelper N n :=
  let (a4v, h1) := a4Acc h
  let (a2v, h2) := a2Acc h1
  let u := h2.a * ((1 : N) • a4v + (420 : N) • a2v + (15120 : N) • h2.ident)
  let v := (30 : N) • a4v + (3360 : N) • a2v + (30240 : N) • h2.ident
  ((u, v), h2)

/-- Translation of `ExpmPadeHelper::pade7` (exp.rs lines 239 to 254) with
coefficients
`b = [17297280, 8648640, 1995840, 277200, 25200, 1512, 56, 1]`. -/
def pade7 {n : ℕ} (h : ExpmPadeHelper N n) :
    (Mat N n × Mat N n) × ExpmPadeHelper N n :=
  let (a6v, h1) := a6Acc h
  let (a4v, h2) := a4Acc h1
  let (a2v, h3) := a2Acc h2
  let u := h3.a *
    ((1 : N) • a6v + (1512 : N) • a4v + (25200 : N) • a2v + (8648640 : N) • h3.ident)
  let v := (56 : N) • a6v + (277200 : N) • a4v + (1995840 : N) • a2v +
    (17297280 : N) • h3.ident
  ((u, v), h3)

/-- Translation of `ExpmPadeHelper::pade9` (exp.rs lines 256 to 281) with
coefficients `b = [17643225600, 8821612800, 2075673600, 302702400, 30270240,
2162160, 110880, 3960, 90, 1]`. -/
def pade9 {n : ℕ} (h : ExpmPadeHelper N n) :
    (Mat N n × Mat N n) × ExpmPadeHelper N n :=
  let (a8v, h1) := a8Acc h
  let (a6v, h2) := a6Acc h1
  let (a4v, h3) := a4Acc h2
  let (a2v, h4) := a2Acc h3
  let u := h4.a *
    ((1 : N) • a8v + (3960 : N) • a6v + (2162160 : N) • a4v +
      (302702400 : N) • a2v + (8821612800 : N) • h4.ident)
  let v := (90 : N) • a8v + (110880 : N) • a6v + (30270240 : N) • a4v +
    (2075673600 : N) • a2v + (17643225600 : N) • h4.ident
  ((u, v), h4)

/-- Translation of `ExpmPadeHelper::pade13_scaled` (exp.rs lines 283 to 312)
with coefficients `b = [64764752532480000, 32382376266240000,
7771770303897600, 1187353796428800, 129060195264000, 10559470521600,
670442572800, 33522128640, 1323241920, 40840800, 960960, 16380, 182, 1]`.
The matrix and its cached powers are scaled independently:
`A`, `A2`, `A4`, `A6` by `2 ^ (-s)`, `2 ^ (-2s)`, `2 ^ (-4s)`, `2 ^ (-6s)`;
these `f64` powers of two are exact and embedded as exact integer powers. -/
def pade13_scaled {n : ℕ} (h : ExpmPadeHelper N n) (s : ℕ) :
    (Mat N n × Mat N n) × ExpmPadeHelper N n :=
  let mb := ((2 : N) ^ (-(s : ℤ))) • h.a
  let (a2v, h1) := a2Acc h
  let mb2 := ((2 : N) ^ (-(2 * s : ℤ))) • a2v
  let (a4v, h2) := a4Acc h1
  let mb4 := ((2 : N) ^ (-(4 * s : ℤ))) • a4v
  let (a6v, h3) := a6Acc h2
  let mb6 := ((2 : N) ^ (-(6 * s : ℤ))) • a6v
  let u2 := mb6 * ((1 : N) • mb6 + (16380 : N) • mb4 + (40840800 : N) • mb2)
  let u := mb * (u2 + (33522128640 : N) • mb6 + (10559470521600 : N) • mb4 +
    (1187353796428800 : N) • mb2 + (32382376266240000 : N) • h3.ident)
  let v2 := mb6 * ((182 : N) • mb6 + (960960 : N) • mb4 + (1323241920 : N) • mb2)
  let v := v2 + (670442572800 : N) • mb6 + (129060195264000 : N) • mb4 +
    (7771770303897600 : N) • mb2 + (64764752532480000 : N) • h3.ident
  ((u, v), h3)

end ExpmPadeHelper

/-- The repeated squaring loop `for _ in 0..s { x = &x * &x }` at the end of
`exp` (exp.rs lines 458 to 460). -/
def squareIter {n : ℕ} (x : Mat N n) : ℕ → Mat N n
  | 0 => x
  | s + 1 => squareIter (x * x) s

open ExpmPadeHelper in
/-- Translation of the decision cascade of `MatrixN::exp` (exp.rs lines 413
to 461), reached when the dimension is not 1.  The helper state is threaded
through the norm accessors exactly in source order; the thresholds are the
exact decimal constants of the source. -/
def expCascade (ops : ScalarOps N) {n : ℕ} (a : Mat N (n + 1)) :
    Option (Mat N (n + 1)) :=
  let h0 := ExpmPadeHelper.new a true
  let (d4l, h1) := d4_loose ops h0
  let (d6l, h2) := d6_loose ops h1
  let eta_1 := max d4l d6l
  if eta_1 < ((1.495585217958292e-2 : ℚ) : N) ∧ ell ops h2.a 3 = some 0 then
    let ((u, v), _) := pade3 h2
    solve_p_q u v
  else
    let (d4t, h3) := d4_tight ops h2
    let (d6l2, h4) := d6_loose ops h3
    let eta_2 := max d4t d6l2
    if eta_2 < ((2.539398330063230e-1 : ℚ) : N) ∧ ell ops h4.a 5 = some 0 then
      let ((u, v), _) := pade5 h4
      solve_p_q u v
    else
      let (d6t, h5) := d6_tight ops h4
      let (d8l, h6) := d8_loose ops h5
      let eta_3 := max d6t d8l
      if eta_3 < ((9.504178996162932e-1 : ℚ) : N) ∧ ell ops h6.a 7 = some 0 then
        let ((u, v), _) := pade7 h6
        solve_p_q u v
      else
        if eta_3 < ((2.097847961257068e0 : ℚ) : N) ∧ ell ops h6.a 9 = some 0 then
          let ((u, v), _) := pade9 h6
          solve_p_q u v
        else
          let (d8l2, h7) := d8_loose ops h6
          let (d10l, h8) := d10_loose ops h7
          let eta_4 := max d8l2 d10l
          let eta_5 := min eta_3 eta_4
          let s : ℕ :=
            if eta_5 = 0 then 0
            else
              let l2 : ℤ := ⌈ops.log2 (eta_5 / ((4.25 : ℚ) : N))⌉
              if l2 < 0 then 0 else l2.toNat
          match ell ops (((2 : N) ^ (-(s : ℤ))) • h8.a) 13 with
          | some e =>
            let s := s + e
            let ((u, v), _) := pade13_scaled h8 s
            (solve_p_q u v).map fun x => squareIter x s
          | none => none

/-- Translation of `MatrixN::exp` (exp.rs lines 407 to 462).  A matrix of
dimension 1 takes the scalar path immediately.  A matrix of dimension 0 is
not dimension 1, so the source enters the cascade, whose first step
evaluates `one_norm` of the 0-by-0 cached power `A4`; `one_norm` then reads
`col_sums[0]` of an empty vector and the call panics with an out-of-bounds
index, which the embedding records as `none`. -/
def exp (ops : ScalarOps N) : {n : ℕ} → Mat N n → Option (Mat N n)
  | 0, _ => none
  | 1, a => some (a.map ops.expScalar)
  | _ + 2, a => expCascade ops a

/-
Specification-side definitions.  The following functions restate the driver
of the specification (sections 4.2 and 4.3) with pure, memoisation-free
quantities: the even powers are written directly through the composition
chain `A4 = A2 * A2`, `A6 = A4 * A2`, `A8 = A6 * A2`, `A10 = A6 * A4`, and
each `d`-value is the collaborator power of the 1-norm of the corresponding
power.  They are compared with the state-threading translation above.
-/

/-- The cached power `A2 = A * A` as a pure value. -/
def P2 {n : ℕ} (a : Mat N n) : Mat N n := a * a

/-- The cached power `A4 = A2 * A2` as a pure value. -/
def P4 {n : ℕ} (a : Mat N n) : Mat N n := P2 a * P2 a

/-- The cached power `A6 = A4 * A2` as a pure value. -/
def P6 {n : ℕ} (a : Mat N n) : Mat N n := P4 a * P2 a

/-- The cached power `A8 = A6 * A2` as a pure value. -/
def P8 {n : ℕ} (a : Mat N n) : Mat N n := P6 a * P2 a

/-- The cached power `A10 = A6 * A4` as a pure value. -/
def P10 {n : ℕ} (a : Mat N n) : Mat N n := P6 a * P4 a

/-- The norm root `d4 = one_norm(A4) ^ (1/4)` as a pure value. -/
def d4v (ops : ScalarOps N) {n : ℕ} (a : Mat N (n + 1)) : N :=
  ops.powf (one_norm (P4 a)) ((0.25 : ℚ) : N)

/-- The norm root `d6 = one_norm(A6) ^ (1/6)` as a pure value. -/
def d6v (ops : ScalarOps N) {n : ℕ} (a : Mat N (n + 1)) : N :=
  ops.powf (one_norm (P6 a)) ((1 / 6 : ℚ) : N)

/-- The norm root `d8 = one_norm(A8) ^ (1/8)` as a pure value. -/
def d8v (ops : ScalarOps N) {n : ℕ} (a : Mat N (n + 1)) : N :=
  ops.powf (one_norm (P8 a)) ((1 / 8 : ℚ) : N)

/-- The norm root `d10 = one_norm(A10) ^ (1/10)` as a pure value. -/
def d10v (ops : ScalarOps N) {n : ℕ} (a : Mat N (n + 1)) : N :=
  ops.powf (one_norm (P10 a)) ((1 / 10 : ℚ) : N)

/-- Step 2 of the driver specification: `eta1 = max(d4_loose, d6_loose)`,
which with exact norms is `max(d4, d6)`. -/
def eta1v (ops : ScalarOps N) {n : ℕ} (a : Mat N (n + 1)) : N :=
  max (d4v ops a) (d6v ops a)

/-- Step 3 of the driver specification: `eta2 = max(d4_tight, d6_loose)`. -/
def eta2v (ops : ScalarOps N) {n : ℕ} (a : Mat N (n + 1)) : N :=
  max (d4v ops a) (d6v ops a)

/-- Step 4 of the driver specification: `eta3 = max(d6_tight, d8_loose)`. -/
def eta3v (ops : ScalarOps N) {n : ℕ} (a : Mat N (n + 1)) : N :=
  max (d6v ops a) (d8v ops a)

/-- Step 5 of the driver specification: `eta4 = max(d8_loose, d10_loose)`. -/
def eta4v (ops : ScalarOps N) {n : ℕ} (a : Mat N (n + 1)) : N :=
  max (d8v ops a) (d10v ops a)

/-- Step 5 of the driver specification: `eta5 = min(eta3, eta4)`. -/
def eta5v (ops : ScalarOps N) {n : ℕ} (a : Mat N (n + 1)) : N :=
  min (eta3v ops a) (eta4v ops a)

/-- Step 5 of the driver specification: the initial scaling exponent, `0`
when `eta5 == 0`, otherwise `ceil(log2(eta5 / 4.25))` clamped to a minimum
of `0`. -/
def sInit (ops : ScalarOps N) {n : ℕ} (a : Mat N (n + 1)) : ℕ :=
  if eta5v ops a = 0 then 0
  else
    let l2 : ℤ := ⌈ops.log2 (eta5v ops a / ((4.25 : ℚ) : N))⌉
    if l2 < 0 then 0 else l2.toNat

/-- The pure `(U, V)` pair of the order-3 Pade approximant. -/
def pade3UV {n : ℕ} (a : Mat N n) : Mat N n × Mat N n :=
  (a * ((1 : N) • P2 a + (60 : N) • (1 : Mat N n)),
    (12 : N) • P2 a + (120 : N) • (1 : Mat N n))

/-- The pure `(U, V)` pair of the order-5 Pade approximant. -/
def pade5UV {n : ℕ} (a : Mat N n) : Mat N n × Mat N n :=
  (a * ((1 : N) • P4 a + (420 : N) • P2 a + (15120 : N) • (1 : Mat N n)),
    (30 : N) • P4 a + (3360 : N) • P2 a + (30240 : N) • (1 : Mat N n))

/-- The pure `(U, V)` pair of the order-7 Pade approximant. -/
def pade7UV {n : ℕ} (a : Mat N n) : Mat N n × Mat N n :=
  (a * ((1 : N) • P6 a + (1512 : N) • P4 a + (25200 : N) • P2 a +
      (8648640 : N) • (1 : Mat N n)),
    (56 : N) • P6 a + (277200 : N) • P4 a + (1995840 : N) • P2 a +
      (17297280 : N) • (1 : Mat N n))

/-- The pure `(U, V)` pair of the order-9 Pade approximant. -/
def pade9UV {n : ℕ} (a : Mat N n) : Mat N n × Mat N n :=
  (a * ((1 : N) • P8 a + (3960 : N) • P6 a + (2162160 : N) • P4 a +
      (302702400 : N) • P2 a + (8821612800 : N) • (1 : Mat N n)),
    (90 : N) • P8 a + (110880 : N) • P6 a + (30270240 : N) • P4 a +
      (2075673600 : N) • P2 a + (17643225600 : N) • (1 : Mat N n))

/-- The pure `(U, V)` pair of the order-13 Pade approximant at scale `s`:
the matrix and each even power are scaled by the matching power of
`2 ^ (-s)` before the Horner-style combination. -/
def pade13UV {n : ℕ} (a : Mat N n) (s : ℕ) : Mat N n × Mat N n :=
  let mb := ((2 : N) ^ (-(s : ℤ))) • a
  let mb2 := ((2 : N) ^ (-(2 * s : ℤ))) • P2 a
  let mb4 := ((2 : N) ^ (-(4 * s : ℤ))) • P4 a
  let mb6 := ((2 : N) ^ (-(6 * s : ℤ))) • P6 a
  let u2 := mb6 * ((1 : N) • mb6 + (16380 : N) • mb4 + (40840800 : N) • mb2)
  let u := mb * (u2 + (33522128640 : N) • mb6 + (10559470521600 : N) • mb4 +
    (1187353796428800 : N) • mb2 + (32382376266240000 : N) • (1 : Mat N n))
  let v2 := mb6 * ((182 : N) • mb6 + (960960 : N) • mb4 + (1323241920 : N) • mb2)
  let v := v2 + (670442572800 : N) • mb6 + (129060195264000 : N) • mb4 +
    (7771770303897600 : N) • mb2 + (64764752532480000 : N) • (1 : Mat N n)
  (u, v)

/-- The ordered candidate selection of the driver specification: the first
acceptable order wins, yielding its `(U, V)` pair together with the number
of squarings to perform on the solved approximant (zero except for the
scaled order-13 candidate). -/
def specChosen (ops : ScalarOps N) {n : ℕ} (a : Mat N (n + 1)) :
    Option ((Mat N (n + 1) × Mat N (n + 1)) × ℕ) :=
  if eta1v ops a < ((1.495585217958292e-2 : ℚ) : N) ∧ ell ops a 3 = some 0 then
    some (pade3UV a, 0)
  else if eta2v ops a < ((2.539398330063230e-1 : ℚ) : N) ∧ ell ops a 5 = some 0 then
    some (pade5UV a, 0)
  else if eta3v ops a < ((9.504178996162932e-1 : ℚ) : N) ∧ ell ops a 7 = some 0 then
    some (pade7UV a, 0)
  else if eta3v ops a < ((2.097847961257068e0 : ℚ) : N) ∧ ell ops a 9 = some 0 then
    some (pade9UV a, 0)
  else
    match ell ops (((2 : N) ^ (-(sInit ops a : ℤ))) • a) 13 with
    | some e => some (pade13UV a (sInit ops a + e), sInit ops a + e)
    | none => none

/-- The driver cascade of the specification written with the pure
quantities: the first candidate whose thresholds pass is solved, and the
order-13 candidate is additionally squared `s` times. -/
def specExpCascade (ops : ScalarOps N) {n : ℕ} (a : Mat N (n + 1)) :
    Option (Mat N (n + 1)) :=
  if eta1v ops a < ((1.495585217958292e-2 : ℚ) : N) ∧ ell ops a 3 = some 0 then
    solve_p_q (pade3UV a).1 (pade3UV a).2
  else if eta2v ops a < ((2.539398330063230e-1 : ℚ) : N) ∧ ell ops a 5 = some 0 then
    solve_p_q (pade5UV a).1 (pade5UV a).2
  else if eta3v ops a < ((9.504178996162932e-1 : ℚ) : N) ∧ ell ops a 7 = some 0 then
    solve_p_q (pade7UV a).1 (pade7UV a).2
  else if eta3v ops a < ((2.097847961257068e0 : ℚ) : N) ∧ ell ops a 9 = some 0 then
    solve_p_q (pade9UV a).1 (pade9UV a).2
  else
    match ell ops (((2 : N) ^ (-(sInit ops a : ℤ))) • a) 13 with
    | some e =>
      (solve_p_q (pade13UV a (sInit ops a + e)).1 (pade13UV a (sInit ops a + e)).2).map
        fun x => squareIter x (sInit ops a + e)
    | none => none

/-
The sparse dimension-compatibility checks
(nalgebra-sparse/src/ops/serial/mod.rs).
-/

/-- The shape of a sparse operand: number of rows and of columns. -/
structure Shape where
  nrows : ℕ
  ncols : ℕ

/-- Translation of `Op<T>`: a tagged choice between an operand used as-is
and an operand used transposed. -/
inductive Op (α : Type) where
  | NoOp (a : α)
  | Transpose (a : α)

/-- Translation of the macro `assert_compatible_spmm_dims!` (serial/mod.rs
lines 12 to 40): the four-case transpose table for
`C := beta * C + alpha * op(A) * op(B)`; `true` means every assertion
passes. -/
def assert_compatible_spmm_dims (c : Shape) (a b : Op Shape) : Bool :=
  match a, b with
  | .NoOp a, .NoOp b =>
    decide (c.nrows = a.nrows) && decide (c.ncols = b.ncols) && decide (a.ncols = b.nrows)
  | .Transpose a, .NoOp b =>
    decide (c.nrows = a.ncols) && decide (c.ncols = b.ncols) && decide (a.nrows = b.nrows)
  | .NoOp a, .Transpose b =>
    decide (c.nrows = a.nrows) && decide (c.ncols = b.nrows) && decide (a.ncols = b.ncols)
  | .Transpose a, .Transpose b =>
    decide (c.nrows = a.ncols) && decide (c.ncols = b.nrows) && decide (a.nrows = b.ncols)

/-- Translation of the macro `assert_compatible_spadd_dims!` (serial/mod.rs
lines 42 to 58): the two-case transpose table for
`C := beta * C + alpha * op(A)`. -/
def assert_compatible_spadd_dims (c : Shape) (a : Op Shape) : Bool :=
  match a with
  | .NoOp a => decide (c.nrows = a.nrows) && decide (c.ncols = a.ncols)
  | .Transpose a => decide (c.nrows = a.ncols) && decide (c.ncols = a.nrows)

/-- Translation of `OperationErrorKind` (serial/mod.rs lines 77 to 87). -/
inductive OperationErrorKind where
  | InvalidPattern

/-- The observable outcome of a sparse arithmetic call: an assertion failure
aborts the process, a typed error is returned to the caller, or the call
succeeds. -/
inductive Outcome (α : Type) where
  | panicked
  | err (e : OperationErrorKind)
  | ok (a : α)

/-- Modelled from the spec: the `spmm_prealloc` routines (the per-format
bodies are not under src/): the dimension assertion macro runs first, before
any arithmetic, and a failed assertion aborts the call; only afterwards does
the pattern-aware arithmetic run, abstracted here as its result `arith`,
which may fail with a typed `InvalidPattern` error. -/
def spmm_prealloc (c : Shape) (a b : Op Shape)
    (arith : Except OperationErrorKind Unit) : Outcome Unit :=
  if assert_compatible_spmm_dims c a b then
    match arith with
    | .ok _ => .ok ()
    | .error e => .err e
  else .panicked

/-- Modelled from the spec: the `spadd_prealloc` routines (the per-format
bodies are not under src/), with the same assertion-first discipline as
`spmm_prealloc`. -/
def spadd_prealloc (c : Shape) (a : Op Shape)
    (arith : Except OperationErrorKind Unit) : Outcome Unit :=
  if assert_compatible_spadd_dims c a then
    match arith with
    | .ok _ => .ok ()
    | .error e => .err e
  else .panicked

/-- A concrete scalar collaborator over the rationals, used to evaluate the
engine on concrete inputs: a power function that is zero at zero, the
identity as logarithm, a constant-one exponential. -/
def ratOps : ScalarOps ℚ :=
  ⟨fun x _ => if x = 0 then 0 else 1, fun x => x, fun _ => 1⟩

/-- A concrete scalar collaborator over the rationals whose logarithm is a
steep linear map, used to separate values that a formula distinguishes. -/
def sepOps : ScalarOps ℚ :=
  ⟨fun x _ => x, fun x => (2 : ℚ) ^ (200 : ℕ) * x, fun x => x⟩

/-- Consistency of a helper state: every cache that is filled holds exactly
the value the source computes for it.  The fresh state of
`ExpmPadeHelper::new` satisfies this vacuously, and every accessor preserves
it. -/
structure Inv (ops : ScalarOps N) {n : ℕ} (h : ExpmPadeHelper N (n + 1)) : Prop where
  identEq : h.ident = 1
  c2 : ∀ m, h.a2 = some m → m = P2 h.a
  c4 : ∀ m, h.a4 = some m → m = P4 h.a
  c6 : ∀ m, h.a6 = some m → m = P6 h.a
  c8 : ∀ m, h.a8 = some m → m = P8 h.a
  c10 : ∀ m, h.a10 = some m → m = P10 h.a
  e4 : ∀ v, h.d4_exact = some v → v = d4v ops h.a
  e6 : ∀ v, h.d6_exact = some v → v = d6v ops h.a
  e8 : ∀ v, h.d8_exact = some v → v = d8v ops h.a
  e10 : ∀ v, h.d10_exact = some v → v = d10v ops h.a
  x4 : ∀ v, h.d4_approx = some v → v = d4v ops h.a
  x6 : ∀ v, h.d6_approx = some v → v = d6v ops h.a
  x8 : ∀ v, h.d8_approx = some v → v = d8v ops h.a
  x10 : ∀ v, h.d10_approx = some v → v = d10v ops h.a

namespace ExpmPadeHelper

/-- The carried matrix, identity, flag and consistency that the accessor
lemmas propagate from a state to its successor state. -/
def Keeps (ops : ScalarOps N) {n : ℕ} (h h' : ExpmPadeHelper N (n + 1)) : Prop :=
  Inv ops h' ∧ h'.a = h.a ∧ h'.ident = h.ident ∧ h'.use_exact_norm = h.use_exact_norm

/-- The fresh helper state is consistent. -/
lemma inv_new (ops : ScalarOps N) {n : ℕ} (a : Mat N (n + 1)) (b : Bool) :
    Inv ops (new a b) := by
  constructor <;> first
    | rfl
    | (intro z e; exact absurd e (by simp [new]))

/-- Filling the `a2` cache with its defined value preserves consistency. -/
lemma inv_set_a2 (ops : ScalarOps N) {n : ℕ} (h : ExpmPadeHelper N (n + 1))
    (hI : Inv ops h) : Inv ops { h with a2 := some (P2 h.a) } :=
  ⟨hI.identEq, fun _ hm => (Option.some_inj.mp hm).symm, hI.c4, hI.c6, hI.c8,
    hI.c10, hI.e4, hI.e6, hI.e8, hI.e10, hI.x4, hI.x6, hI.x8, hI.x10⟩

/-- Filling the `a4` cache with its defined value preserves consistency. -/
lemma inv_set_a4 (ops : ScalarOps N) {n : ℕ} (h : ExpmPadeHelper N (n + 1))
    (hI : Inv ops h) : Inv ops { h with a4 := some (P4 h.a) } :=
  ⟨hI.identEq, hI.c2, fun _ hm => (Option.some_inj.mp hm).symm, hI.c6, hI.c8,
    hI.c10, hI.e4, hI.e6, hI.e8, hI.e10, hI.x4, hI.x6, hI.x8, hI.x10⟩

/-- Filling the `a6` cache with its defined value preserves consistency. -/
lemma inv_set_a6 (ops : ScalarOps N) {n : ℕ} (h : ExpmPadeHelper N (n + 1))
    (hI : Inv ops h) : Inv ops { h with a6 := some (P6 h.a) } :=
  ⟨hI.identEq, hI.c2, hI.c4, fun _ hm => (Option.some_inj.mp hm).symm, hI.c8,
    hI.c10, hI.e4, hI.e6, hI.e8, hI.e10, hI.x4, hI.x6, hI.x8, hI.x10⟩

/-- Filling the `a8` cache with its defined value preserves consistency. -/
lemma inv_set_a8 (ops : ScalarOps N) {n : ℕ} (h : ExpmPadeHelper N (n + 1))
    (hI : Inv ops h) : Inv ops { h with a8 := some (P8 h.a) } :=
  ⟨hI.identEq, hI.c2, hI.c4, hI.c6, fun _ hm => (Option.some_inj.mp hm).symm,
    hI.c10, hI.e4, hI.e6, hI.e8, hI.e10, hI.x4, hI.x6, hI.x8, hI.x10⟩

/-- Filling the `a10` cache with its defined value preserves consistency. -/
lemma inv_set_a10 (ops : ScalarOps N) {n : ℕ} (h : ExpmPadeHelper N (n + 1))
    (hI : Inv ops h) : Inv ops { h with a10 := some (P10 h.a) } :=
  ⟨hI.identEq, hI.c2, hI.c4, hI.c6, hI.c8,
    fun _ hm => (Option.some_inj.mp hm).symm, hI.e4, hI.e6, hI.e8, hI.e10,
    hI.x4, hI.x6, hI.x8, hI.x10⟩

/-- Filling the exact `d4` cache with its defined value preserves
consistency. -/
lemma inv_set_e4 (ops : ScalarOps N) {n : ℕ} (h : ExpmPadeHelper N (n + 1))
    (hI : Inv ops h) : Inv ops { h with d4_exact := some (d4v ops h.a) } :=
  ⟨hI.identEq, hI.c2, hI.c4, hI.c6, hI.c8, hI.c10,
    fun _ hm => (Option.some_inj.mp hm).symm, hI.e6, hI.e8, hI.e10,
    hI.x4, hI.x6, hI.x8, hI.x10⟩

/-- Filling the exact `d6` cache with its defined value preserves
consistency. -/
lemma inv_set_e6 (ops : ScalarOps N) {n : ℕ} (h : ExpmPadeHelper N (n + 1))
    (hI : Inv ops h) : Inv ops { h with d6_exact := some (d6v ops h.a) } :=
  ⟨hI.identEq, hI.c2, hI.c4, hI.c6, hI.c8, hI.c10, hI.e4,
    fun _ hm => (Option.some_inj.mp hm).symm, hI.e8, hI.e10,
    hI.x4, hI.x6, hI.x8, hI.x10⟩

/-- Filling the exact `d8` cache with its defined value preserves
consistency. -/
lemma inv_set_e8 (ops : ScalarOps N) {n : ℕ} (h : ExpmPadeHelper N (n + 1))
    (hI : Inv ops h) : Inv ops { h with d8_exact := some (d8v ops h.a) } :=
  ⟨hI.identEq, hI.c2, hI.c4, hI.c6, hI.c8, hI.c10, hI.e4, hI.e6,
    fun _ hm => (Option.some_inj.mp hm).symm, hI.e10,
    hI.x4, hI.x6, hI.x8, hI.x10⟩

/-- Filling the exact `d10` cache with its defined value preserves
consistency. -/
lemma inv_set_e10 (ops : ScalarOps N) {n : ℕ} (h : ExpmPadeHelper N (n + 1))
    (hI : Inv ops h) : Inv ops { h with d10_exact := some (d10v ops h.a) } :=
  ⟨hI.identEq, hI.c2, hI.c4, hI.c6, hI.c8, hI.c10, hI.e4, hI.e6, hI.e8,
    fun _ hm => (Option.some_inj.mp hm).symm,
    hI.x4, hI.x6, hI.x8, hI.x10⟩

/-- Filling the approximate `d4` cache with its defined value preserves
consistency. -/
lemma inv_set_x4 (ops : ScalarOps N) {n : ℕ} (h : ExpmPadeHelper N (n + 1))
    (hI : Inv ops h) : Inv ops { h with d4_approx := some (d4v ops h.a) } :=
  ⟨hI.identEq, hI.c2, hI.c4, hI.c6, hI.c8, hI.c10, hI.e4, hI.e6, hI.e8,
    hI.e10, fun _ hm => (Option.some_inj.mp hm).symm, hI.x6, hI.x8, hI.x10⟩

/-- Filling the approximate `d6` cache with its defined value preserves
consistency. -/
lemma inv_set_x6 (ops : ScalarOps N) {n : ℕ} (h : ExpmPadeHelper N (n + 1))
    (hI : Inv ops h) : Inv ops { h with d6_approx := some (d6v ops h.a) } :=
  ⟨hI.identEq, hI.c2, hI.c4, hI.c6, hI.c8, hI.c10, hI.e4, hI.e6, hI.e8,
    hI.e10, hI.x4, fun _ hm => (Option.some_inj.mp hm).symm, hI.x8, hI.x10⟩

/-- Filling the approximate `d8` cache with its defined value preserves
consistency. -/
lemma inv_set_x8 (ops : ScalarOps N) {n : ℕ} (h : ExpmPadeHelper N (n + 1))
    (hI : Inv ops h) : Inv ops { h with d8_approx := some (d8v ops h.a) } :=
  ⟨hI.identEq, hI.c2, hI.c4, hI.c6, hI.c8, hI.c10, hI.e4, hI.e6, hI.e8,
    hI.e10, hI.x4, hI.x6, fun _ hm => (Option.some_inj.mp hm).symm, hI.x10⟩

/-- Filling the approximate `d10` cache with its defined value preserves
consistency. -/
lemma inv_set_x10 (ops : ScalarOps N) {n : ℕ} (h : ExpmPadeHelper N (n + 1))
    (hI : Inv ops h) : Inv ops { h with d10_approx := some (d10v ops h.a) } :=
  ⟨hI.identEq, hI.c2, hI.c4, hI.c6, hI.c8, hI.c10, hI.e4, hI.e6, hI.e8,
    hI.e10, hI.x4, hI.x6, hI.x8, fun _ hm => (Option.some_inj.mp hm).symm⟩

/-- The `a2` accessor on a consistent state: correct value, consistent
successor state. -/
lemma a2Acc_good (ops : ScalarOps N) {n : ℕ} (h : ExpmPadeHelper N (n + 1))
    (hI : Inv ops h) : (a2Acc h).1 = P2 h.a ∧ Keeps ops h (a2Acc h).2 := by
  cases e : h.a2 with
  | some m =>
    have hv := hI.c2 m e
    exact ⟨by simp [a2Acc, e, hv], by simp only [a2Acc, e]; exact ⟨hI, rfl, rfl, rfl⟩⟩
  | none =>
    refine ⟨by simp [a2Acc, e, P2], ?_⟩
    simp only [a2Acc, e]
    exact ⟨inv_set_a2 ops h hI, rfl, rfl, rfl⟩

/-- The `a4` accessor on a consistent state: correct value, consistent
successor state. -/
lemma a4Acc_good (ops : ScalarOps N) {n : ℕ} (h : ExpmPadeHelper N (n + 1))
    (hI : Inv ops h) : (a4Acc h).1 = P4 h.a ∧ Keeps ops h (a4Acc h).2 := by
  cases e : h.a4 with
  | some m =>
    have hv := hI.c4 m e
    exact ⟨by simp [a4Acc, e, hv], by simp only [a4Acc, e]; exact ⟨hI, rfl, rfl, rfl⟩⟩
  | none =>
    obtain ⟨hval, hI1, ha1, hid1, hu1⟩ := a2Acc_good ops h hI
    rcases hA : a2Acc h with ⟨a2v, h1⟩
    rw [hA] at hval hI1 ha1 hid1 hu1
    simp only at hval hI1 ha1 hid1 hu1
    subst hval
    simp only [a4Acc, e, hA]
    have hPP : P2 h.a * P2 h.a = P4 h1.a := by rw [ha1]; rfl
    refine ⟨by rw [hPP, ha1], ?_, by simpa using ha1, by simpa using hid1,
      by simpa using hu1⟩
    rw [hPP]
    exact inv_set_a4 ops h1 hI1

/-- The `a6` accessor on a consistent state: correct value, consistent
successor state. -/
lemma a6Acc_good (ops : ScalarOps N) {n : ℕ} (h : ExpmPadeHelper N (n + 1))
    (hI : Inv ops h) : (a6Acc h).1 = P6 h.a ∧ Keeps ops h (a6Acc h).2 := by
  cases e : h.a6 with
  | some m =>
    have hv := hI.c6 m e
    exact ⟨by simp [a6Acc, e, hv], by simp only [a6Acc, e]; exact ⟨hI, rfl, rfl, rfl⟩⟩
  | none =>
    obtain ⟨hv1, hI1, ha1, hid1, hu1⟩ := a2Acc_good ops h hI
    rcases hA : a2Acc h with ⟨a2v, h1⟩
    rw [hA] at hv1 hI1 ha1 hid1 hu1
    simp only at hv1 hI1 ha1 hid1 hu1
    obtain ⟨hv2, hI2, ha2, hid2, hu2⟩ := a4Acc_good ops h1 hI1
    rcases hB : a4Acc h1 with ⟨a4v, h2⟩
    rw [hB] at hv2 hI2 ha2 hid2 hu2
    simp only at hv2 hI2 ha2 hid2 hu2
    subst hv1
    subst hv2
    simp only [a6Acc, e, hA, hB]
    have hPP : P4 h1.a * P2 h.a = P6 h2.a := by rw [ha2, ha1]; rfl
    refine ⟨by rw [hPP, ha2, ha1], ?_, by simp [ha2, ha1], by simp [hid2, hid1],
      by simp [hu2, hu1]⟩
    rw [hPP]
    exact inv_set_a6 ops h2 hI2

/-- The `a8` accessor on a consistent state: correct value, consistent
successor state. -/
lemma a8Acc_good (ops : ScalarOps N) {n : ℕ} (h : ExpmPadeHelper N (n + 1))
    (hI : Inv ops h) : (a8Acc h).1 = P8 h.a ∧ Keeps ops h (a8Acc h).2 := by
  cases e : h.a8 with
  | some m =>
    have hv := hI.c8 m e
    exact ⟨by simp [a8Acc, e, hv], by simp only [a8Acc, e]; exact ⟨hI, rfl, rfl, rfl⟩⟩
  | none =>
    obtain ⟨hv1, hI1, ha1, hid1, hu1⟩ := a2Acc_good ops h hI
    rcases hA : a2Acc h with ⟨a2v, h1⟩
    rw [hA] at hv1 hI1 ha1 hid1 hu1
    simp only at hv1 hI1 ha1 hid1 hu1
    obtain ⟨hv2, hI2, ha2, hid2, hu2⟩ := a6Acc_good ops h1 hI1
    rcases hB : a6Acc h1 with ⟨a6v, h2⟩
    rw [hB] at hv2 hI2 ha2 hid2 hu2
    simp only at hv2 hI2 ha2 hid2 hu2
    subst hv1
    subst hv2
    simp only [a8Acc, e, hA, hB]
    have hPP : P6 h1.a * P2 h.a = P8 h2.a := by rw [ha2, ha1]; rfl
    refine ⟨by rw [hPP, ha2, ha1], ?_, by simp [ha2, ha1], by simp [hid2, hid1],
      by simp [hu2, hu1]⟩
    rw [hPP]
    exact inv_set_a8 ops h2 hI2

/-- The `a10` accessor on a consistent state: correct value, consistent
successor state. -/
lemma a10Acc_good (ops : ScalarOps N) {n : ℕ} (h : ExpmPadeHelper N (n + 1))
    (hI : Inv ops h) : (a10Acc h).1 = P10 h.a ∧ Keeps ops h (a10Acc h).2 := by
  cases e : h.a10 with
  | some m =>
    have hv := hI.c10 m e
    exact ⟨by simp [a10Acc, e, hv], by simp only [a10Acc, e]; exact ⟨hI, rfl, rfl, rfl⟩⟩
  | none =>
    obtain ⟨hv1, hI1, ha1, hid1, hu1⟩ := a4Acc_good ops h hI
    rcases hA : a4Acc h with ⟨a4v, h1⟩
    rw [hA] at hv1 hI1 ha1 hid1 hu1
    simp only at hv1 hI1 ha1 hid1 hu1
    obtain ⟨hv2, hI2, ha2, hid2, hu2⟩ := a6Acc_good ops h1 hI1
    rcases hB : a6Acc h1 with ⟨a6v, h2⟩
    rw [hB] at hv2 hI2 ha2 hid2 hu2
    simp only at hv2 hI2 ha2 hid2 hu2
    subst hv1
    subst hv2
    simp only [a10Acc, e, hA, hB]
    have hPP : P6 h1.a * P4 h.a = P10 h2.a := by rw [ha2, ha1]; rfl
    refine ⟨by rw [hPP, ha2, ha1], ?_, by simp [ha2, ha1], by simp [hid2, hid1],
      by simp [hu2, hu1]⟩
    rw [hPP]
    exact inv_set_a10 ops h2 hI2

/-- The tight `d4` accessor on a consistent state. -/
lemma d4_tight_good (ops : ScalarOps N) {n : ℕ} (h : ExpmPadeHelper N (n + 1))
    (hI : Inv ops h) :
    (d4_tight ops h).1 = d4v ops h.a ∧ Keeps ops h (d4_tight ops h).2 := by
  cases e : h.d4_exact with
  | some v =>
    have hv := hI.e4 v e
    exact ⟨by simp [d4_tight, e, hv],
      by simp only [d4_tight, e]; exact ⟨hI, rfl, rfl, rfl⟩⟩
  | none =>
    obtain ⟨hv1, hI1, ha1, hid1, hu1⟩ := a4Acc_good ops h hI
    rcases hA : a4Acc h with ⟨a4v, h1⟩
    rw [hA] at hv1 hI1 ha1 hid1 hu1
    simp only at hv1 hI1 ha1 hid1 hu1
    subst hv1
    simp only [d4_tight, e, hA]
    have hDD : ops.powf (one_norm (P4 h.a)) ((0.25 : ℚ) : N) = d4v ops h1.a := by
      rw [ha1]; rfl
    refine ⟨by rw [hDD, ha1], ?_, by simp [ha1], by simp [hid1], by simp [hu1]⟩
    rw [hDD]
    exact inv_set_e4 ops h1 hI1

/-- The tight `d6` accessor on a consistent state. -/
lemma d6_tight_good (ops : ScalarOps N) {n : ℕ} (h : ExpmPadeHelper N (n + 1))
    (hI : Inv ops h) :
    (d6_tight ops h).1 = d6v ops h.a ∧ Keeps ops h (d6_tight ops h).2 := by
  cases e : h.d6_exact with
  | some v =>
    have hv := hI.e6 v e
    exact ⟨by simp [d6_tight, e, hv],
      by simp only [d6_tight, e]; exact ⟨hI, rfl, rfl, rfl⟩⟩
  | none =>
    obtain ⟨hv1, hI1, ha1, hid1, hu1⟩ := a6Acc_good ops h hI
    rcases hA : a6Acc h with ⟨a6v, h1⟩
    rw [hA] at hv1 hI1 ha1 hid1 hu1
    simp only at hv1 hI1 ha1 hid1 hu1
    subst hv1
    simp only [d6_tight, e, hA]
    have hDD : ops.powf (one_norm (P6 h.a)) ((1 / 6 : ℚ) : N) = d6v ops h1.a := by
      rw [ha1]; rfl
    refine ⟨by rw [hDD, ha1], ?_, by simp [ha1], by simp [hid1], by simp [hu1]⟩
    rw [hDD]
    exact inv_set_e6 ops h1 hI1

/-- The tight `d8` accessor on a consistent state. -/
lemma d8_tight_good (ops : ScalarOps N) {n : ℕ} (h : ExpmPadeHelper N (n + 1))
    (hI : Inv ops h) :
    (d8_tight ops h).1 = d8v ops h.a ∧ Keeps ops h (d8_tight ops h).2 := by
  cases e : h.d8_exact with
  | some v =>
    have hv := hI.e8 v e
    exact ⟨by simp [d8_tight, e, hv],
      by simp only [d8_tight, e]; exact ⟨hI, rfl, rfl, rfl⟩⟩
  | none =>
    obtain ⟨hv1, hI1, ha1, hid1, hu1⟩ := a8Acc_good ops h hI
    rcases hA : a8Acc h with ⟨a8v, h1⟩
    rw [hA] at hv1 hI1 ha1 hid1 hu1
    simp only at hv1 hI1 ha1 hid1 hu1
    subst hv1
    simp only [d8_tight, e, hA]
    have hDD : ops.powf (one_norm (P8 h.a)) ((1 / 8 : ℚ) : N) = d8v ops h1.a := by
      rw [ha1]; rfl
    refine ⟨by rw [hDD, ha1], ?_, by simp [ha1], by simp [hid1], by simp [hu1]⟩
    rw [hDD]
    exact inv_set_e8 ops h1 hI1

/-- The tight `d10` accessor on a consistent state. -/
lemma d10_tight_good (ops : ScalarOps N) {n : ℕ} (h : ExpmPadeHelper N (n + 1))
    (hI : Inv ops h) :
    (d10_tight ops h).1 = d10v ops h.a ∧ Keeps ops h (d10_tight ops h).2 := by
  cases e : h.d10_exact with
  | some v =>
    have hv := hI.e10 v e
    exact ⟨by simp [d10_tight, e, hv],
      by simp only [d10_tight, e]; exact ⟨hI, rfl, rfl, rfl⟩⟩
  | none =>
    obtain ⟨hv1, hI1, ha1, hid1, hu1⟩ := a10Acc_good ops h hI
    rcases hA : a10Acc h with ⟨a10v, h1⟩
    rw [hA] at hv1 hI1 ha1 hid1 hu1
    simp only at hv1 hI1 ha1 hid1 hu1
    subst hv1
    simp only [d10_tight, e, hA]
    have hDD : ops.powf (one_norm (P10 h.a)) ((1 / 10 : ℚ) : N) = d10v ops h1.a := by
      rw [ha1]; rfl
    refine ⟨by rw [hDD, ha1], ?_, by simp [ha1], by simp [hid1], by simp [hu1]⟩
    rw [hDD]
    exact inv_set_e10 ops h1 hI1

/-- The loose `d4` accessor on a consistent state returns the same value as
the tight one. -/
lemma d4_loose_good (ops : ScalarOps N) {n : ℕ} (h : ExpmPadeHelper N (n + 1))
    (hI : Inv ops h) :
    (d4_loose ops h).1 = d4v ops h.a ∧ Keeps ops h (d4_loose ops h).2 := by
  cases eu : h.use_exact_norm with
  | true => simpa [d4_loose, eu] using d4_tight_good ops h hI
  | false =>
    cases e : h.d4_exact with
    | some v =>
      have hv := hI.e4 v e
      refine ⟨by simp [d4_loose, eu, e, hv], ?_⟩
      simp only [d4_loose, eu, e, Bool.false_eq_true, if_false]
      exact ⟨hI, rfl, rfl, rfl⟩
    | none =>
      cases ex : h.d4_approx with
      | some v =>
        have hv := hI.x4 v ex
        refine ⟨by simp [d4_loose, eu, e, ex, hv], ?_⟩
        simp only [d4_loose, eu, e, ex, Bool.false_eq_true, if_false]
        exact ⟨hI, rfl, rfl, rfl⟩
      | none =>
        obtain ⟨hv1, hI1, ha1, hid1, hu1⟩ := a4Acc_good ops h hI
        rcases hA : a4Acc h with ⟨a4v, h1⟩
        rw [hA] at hv1 hI1 ha1 hid1 hu1
        simp only at hv1 hI1 ha1 hid1 hu1
        subst hv1
        simp only [d4_loose, eu, e, ex, hA, Bool.false_eq_true, if_false]
        have hDD : ops.powf (one_norm (P4 h.a)) ((0.25 : ℚ) : N) = d4v ops h1.a := by
          rw [ha1]; rfl
        refine ⟨by rw [hDD, ha1], ?_, by simp [ha1], by simp [hid1], by simp [hu1]⟩
        rw [hDD]
        exact inv_set_x4 ops h1 hI1

/-- The loose `d6` accessor on a consistent state returns the same value as
the tight one. -/
lemma d6_loose_good (ops : ScalarOps N) {n : ℕ} (h : ExpmPadeHelper N (n + 1))
    (hI : Inv ops h) :
    (d6_loose ops h).1 = d6v ops h.a ∧ Keeps ops h (d6_loose ops h).2 := by
  cases eu : h.use_exact_norm with
  | true => simpa [d6_loose, eu] using d6_tight_good ops h hI
  | false =>
    cases e : h.d6_exact with
    | some v =>
      have hv := hI.e6 v e
      refine ⟨by simp [d6_loose, eu, e, hv], ?_⟩
      simp only [d6_loose, eu, e, Bool.false_eq_true, if_false]
      exact ⟨hI, rfl, rfl, rfl⟩
    | none =>
      cases ex : h.d6_approx with
      | some v =>
        have hv := hI.x6 v ex
        refine ⟨by simp [d6_loose, eu, e, ex, hv], ?_⟩
        simp only [d6_loose, eu, e, ex, Bool.false_eq_true, if_false]
        exact ⟨hI, rfl, rfl, rfl⟩
      | none =>
        obtain ⟨hv1, hI1, ha1, hid1, hu1⟩ := a6Acc_good ops h hI
        rcases hA : a6Acc h with ⟨a6v, h1⟩
        rw [hA] at hv1 hI1 ha1 hid1 hu1
        simp only at hv1 hI1 ha1 hid1 hu1
        subst hv1
        simp only [d6_loose, eu, e, ex, hA, Bool.false_eq_true, if_false]
        have hDD : ops.powf (one_norm (P6 h.a)) ((1 / 6 : ℚ) : N) = d6v ops h1.a := by
          rw [ha1]; rfl
        refine ⟨by rw [hDD, ha1], ?_, by simp [ha1], by simp [hid1], by simp [hu1]⟩
        rw [hDD]
        exact inv_set_x6 ops h1 hI1

/-- The loose `d8` accessor on a consistent state returns the same value as
the tight one. -/
lemma d8_loose_good (ops : ScalarOps N) {n : ℕ} (h : ExpmPadeHelper N (n + 1))
    (hI : Inv ops h) :
    (d8_loose ops h).1 = d8v ops h.a ∧ Keeps ops h (d8_loose ops h).2 := by
  cases eu : h.use_exact_norm with
  | true => simpa [d8_loose, eu] using d8_tight_good ops h hI
  | false =>
    cases e : h.d8_exact with
    | some v =>
      have hv := hI.e8 v e
      refine ⟨by simp [d8_loose, eu, e, hv], ?_⟩
      simp only [d8_loose, eu, e, Bool.false_eq_true, if_false]
      exact ⟨hI, rfl, rfl, rfl⟩
    | none =>
      cases ex : h.d8_approx with
      | some v =>
        have hv := hI.x8 v ex
        refine ⟨by simp [d8_loose, eu, e, ex, hv], ?_⟩
        simp only [d8_loose, eu, e, ex, Bool.false_eq_true, if_false]
        exact ⟨hI, rfl, rfl, rfl⟩
      | none =>
        obtain ⟨hv1, hI1, ha1, hid1, hu1⟩ := a8Acc_good ops h hI
        rcases hA : a8Acc h with ⟨a8v, h1⟩
        rw [hA] at hv1 hI1 ha1 hid1 hu1
        simp only at hv1 hI1 ha1 hid1 hu1
        subst hv1
        simp only [d8_loose, eu, e, ex, hA, Bool.false_eq_true, if_false]
        have hDD : ops.powf (one_norm (P8 h.a)) ((1 / 8 : ℚ) : N) = d8v ops h1.a := by
          rw [ha1]; rfl
        refine ⟨by rw [hDD, ha1], ?_, by simp [ha1], by simp [hid1], by simp [hu1]⟩
        rw [hDD]
        exact inv_set_x8 ops h1 hI1

/-- The loose `d10` accessor on a consistent state returns the same value as
the tight one. -/
lemma d10_loose_good (ops : ScalarOps N) {n : ℕ} (h : ExpmPadeHelper N (n + 1))
    (hI : Inv ops h) :
    (d10_loose ops h).1 = d10v ops h.a ∧ Keeps ops h (d10_loose ops h).2 := by
  cases eu : h.use_exact_norm with
  | true => simpa [d10_loose, eu] using d10_tight_good ops h hI
  | false =>
    cases e : h.d10_exact with
    | some v =>
      have hv := hI.e10 v e
      refine ⟨by simp [d10_loose, eu, e, hv], ?_⟩
      simp only [d10_loose, eu, e, Bool.false_eq_true, if_false]
      exact ⟨hI, rfl, rfl, rfl⟩
    | none =>
      cases ex : h.d10_approx with
      | some v =>
        have hv := hI.x10 v ex
        refine ⟨by simp [d10_loose, eu, e, ex, hv], ?_⟩
        simp only [d10_loose, eu, e, ex, Bool.false_eq_true, if_false]
        exact ⟨hI, rfl, rfl, rfl⟩
      | none =>
        obtain ⟨hv1, hI1, ha1, hid1, hu1⟩ := a10Acc_good ops h hI
        rcases hA : a10Acc h with ⟨a10v, h1⟩
        rw [hA] at hv1 hI1 ha1 hid1 hu1
        simp only at hv1 hI1 ha1 hid1 hu1
        subst hv1
        simp only [d10_loose, eu, e, ex, hA, Bool.false_eq_true, if_false]
        have hDD : ops.powf (one_norm (P10 h.a)) ((1 / 10 : ℚ) : N) = d10v ops h1.a := by
          rw [ha1]; rfl
        refine ⟨by rw [hDD, ha1], ?_, by simp [ha1], by simp [hid1], by simp [hu1]⟩
        rw [hDD]
        exact inv_set_x10 ops h1 hI1

/-- A cached `a2` power is returned as-is, with the state untouched. -/
lemma a2Acc_hit {n : ℕ} (h : ExpmPadeHelper N n) (m : Mat N n)
    (e : h.a2 = some m) : a2Acc h = (m, h) := by simp [a2Acc, e]

/-- A cached `a4` power is returned as-is, with the state untouched. -/
lemma a4Acc_hit {n : ℕ} (h : ExpmPadeHelper N n) (m : Mat N n)
    (e : h.a4 = some m) : a4Acc h = (m, h) := by simp [a4Acc, e]

/-- A cached `a6` power is returned as-is, with the state untouched. -/
lemma a6Acc_hit {n : ℕ} (h : ExpmPadeHelper N n) (m : Mat N n)
    (e : h.a6 = some m) : a6Acc h = (m, h) := by simp [a6Acc, e]

/-- A cached `a8` power is returned as-is, with the state untouched. -/
lemma a8Acc_hit {n : ℕ} (h : ExpmPadeHelper N n) (m : Mat N n)
    (e : h.a8 = some m) : a8Acc h = (m, h) := by simp [a8Acc, e]

/-- A cached `a10` power is returned as-is, with the state untouched. -/
lemma a10Acc_hit {n : ℕ} (h : ExpmPadeHelper N n) (m : Mat N n)
    (e : h.a10 = some m) : a10Acc h = (m, h) := by simp [a10Acc, e]

/-- The `a2` accessor always leaves its own cache filled with the returned
value. -/
lemma a2Acc_caches {n : ℕ} (h : ExpmPadeHelper N n) :
    (a2Acc h).2.a2 = some ((a2Acc h).1) := by
  cases e : h.a2 <;> simp [a2Acc, e]

/-- The `a4` accessor always leaves its own cache filled with the returned
value. -/
lemma a4Acc_caches {n : ℕ} (h : ExpmPadeHelper N n) :
    (a4Acc h).2.a4 = some ((a4Acc h).1) := by
  cases e : h.a4 with
  | some m => simp [a4Acc, e]
  | none =>
    rcases hA : a2Acc h with ⟨a2v, h1⟩
    simp [a4Acc, e, hA]

/-- The `a6` accessor always leaves its own cache filled with the returned
value. -/
lemma a6Acc_caches {n : ℕ} (h : ExpmPadeHelper N n) :
    (a6Acc h).2.a6 = some ((a6Acc h).1) := by
  cases e : h.a6 with
  | some m => simp [a6Acc, e]
  | none =>
    rcases hA : a2Acc h with ⟨a2v, h1⟩
    rcases hB : a4Acc h1 with ⟨a4v, h2⟩
    simp [a6Acc, e, hA, hB]

/-- The `a8` accessor always leaves its own cache filled with the returned
value. -/
lemma a8Acc_caches {n : ℕ} (h : ExpmPadeHelper N n) :
    (a8Acc h).2.a8 = some ((a8Acc h).1) := by
  cases e : h.a8 with
  | some m => simp [a8Acc, e]
  | none =>
    rcases hA : a2Acc h with ⟨a2v, h1⟩
    rcases hB : a6Acc h1 with ⟨a6v, h2⟩
    simp [a8Acc, e, hA, hB]

/-- The `a10` accessor always leaves its own cache filled with the returned
value. -/
lemma a10Acc_caches {n : ℕ} (h : ExpmPadeHelper N n) :
    (a10Acc h).2.a10 = some ((a10Acc h).1) := by
  cases e : h.a10 with
  | some m => simp [a10Acc, e]
  | none =>
    rcases hA : a4Acc h with ⟨a4v, h1⟩
    rcases hB : a6Acc h1 with ⟨a6v, h2⟩
    simp [a10Acc, e, hA, hB]

end ExpmPadeHelper


/-
Supporting lemmas.
-/

/-- The seed of a running-maximum fold bounds the fold from below. -/
lemma le_foldl_max {ι : Type} (f : ι → N) (l : List ι) (acc : N) :
    acc ≤ List.foldl (fun mx j => max mx (f j)) acc l := by
  induction l generalizing acc with
  | nil => exact le_refl acc
  | cons j t ih => exact le_trans (le_max_left acc (f j)) (ih (max acc (f j)))

/-- Every listed value bounds a running-maximum fold from below. -/
lemma foldl_max_le {ι : Type} (f : ι → N) (l : List ι) :
    ∀ (acc : N) (j : ι), j ∈ l →
      f j ≤ List.foldl (fun mx j => max mx (f j)) acc l := by
  induction l with
  | nil => intro acc j hj; cases hj
  | cons k t ih =>
    intro acc j hj
    rcases List.mem_cons.mp hj with h | h
    · subst h
      exact le_trans (le_max_right acc (f j)) (le_foldl_max f t (max acc (f j)))
    · exact ih (max acc (f k)) j h

/-- A running-maximum fold is attained at its seed or at a listed value. -/
lemma foldl_max_attained {ι : Type} (f : ι → N) (l : List ι) (acc : N) :
    List.foldl (fun mx j => max mx (f j)) acc l = acc ∨
      ∃ j ∈ l, List.foldl (fun mx j => max mx (f j)) acc l = f j := by
  induction l generalizing acc with
  | nil => exact Or.inl rfl
  | cons k t ih =>
    rw [List.foldl_cons]
    rcases ih (max acc (f k)) with h | ⟨j, hj, hh⟩
    · rcases max_choice acc (f k) with hm | hm
      · exact Or.inl (by rw [h, hm])
      · exact Or.inr ⟨k, List.mem_cons_self k t, by rw [h, hm]⟩
    · exact Or.inr ⟨j, List.mem_cons_of_mem k hj, hh⟩

/-- Every nonzero index occurs in the tail of `finRange`. -/
lemma mem_tail_finRange {n : ℕ} (j : Fin (n + 1)) (hj : j ≠ 0) :
    j ∈ (List.finRange (n + 1)).tail := by
  rw [List.finRange_succ_eq_map, List.tail_cons]
  exact List.mem_map.mpr ⟨j.pred hj, List.mem_finRange _, Fin.succ_pred j hj⟩

/-- The fold of `one_norm` computes the maximum of the column sums. -/
lemma one_norm_eq_sup {n : ℕ} (m : Mat N (n + 1)) :
    one_norm m = Finset.univ.sup' Finset.univ_nonempty (colSum m) := by
  apply le_antisymm
  · rcases foldl_max_attained (colSum m) (List.finRange (n + 1)).tail (colSum m 0) with
      h | ⟨j, _, hh⟩
    · rw [one_norm, h]
      exact Finset.le_sup' (colSum m) (Finset.mem_univ 0)
    · rw [one_norm, hh]
      exact Finset.le_sup' (colSum m) (Finset.mem_univ j)
  · apply Finset.sup'_le
    intro j _
    by_cases hj : j = 0
    · subst hj
      exact le_foldl_max (colSum m) (List.finRange (n + 1)).tail (colSum m 0)
    · exact foldl_max_le (colSum m) (List.finRange (n + 1)).tail (colSum m 0) j
        (mem_tail_finRange j hj)

/-- The 1-norm of the zero matrix is zero. -/
lemma one_norm_zero {n : ℕ} : one_norm (0 : Mat N (n + 1)) = 0 := by
  rw [one_norm_eq_sup]
  have hc : colSum (0 : Mat N (n + 1)) = fun _ => (0 : N) :=
    funext fun j => by simp [colSum]
  rw [hc]
  exact Finset.sup'_const Finset.univ_nonempty (0 : N)

/-- The elementwise absolute value of the zero matrix is zero. -/
lemma matAbs_zero {n : ℕ} : matAbs (0 : Mat N n) = 0 := by
  ext i j
  simp [matAbs]

/-- The power estimator returns exactly zero on the zero matrix for any
positive power. -/
lemma onenorm_pow_zero_matrix {n : ℕ} (p : ℕ) (hp : 1 ≤ p) :
    onenorm_matrix_power_nonm (0 : Mat N (n + 1)) p = 0 := by
  obtain ⟨q, rfl⟩ : ∃ q, p = q + 1 := ⟨p - 1, by omega⟩
  unfold onenorm_matrix_power_nonm
  have hf : (fun v : Fin (n + 1) → N =>
      Matrix.mulVec (0 : Mat N (n + 1)).transpose v) = fun _ => 0 := by
    funext v
    simp [Matrix.transpose_zero, Matrix.zero_mulVec]
  rw [hf, Function.iterate_succ_apply, Function.iterate_fixed rfl]
  exact Finset.sup'_const Finset.univ_nonempty (0 : N)

/-- When the estimated norm is zero, `ell` short-circuits to zero. -/
lemma ell_zero_of_est_zero (ops : ScalarOps N) {n : ℕ} (a : Mat N (n + 1)) (m : ℕ)
    (h : onenorm_matrix_power_nonm (matAbs a) (2 * m + 1) = 0) :
    ell ops a m = some 0 := by
  unfold ell
  rw [if_pos h]

/-- The wrapping decrement of the source recursion agrees with the ordinary
predecessor on in-range positive arguments. -/
lemma wrap_pred (n : ℕ) (h1 : 1 ≤ n) (hlt : n < u128Mod) :
    (n + (u128Mod - 1)) % u128Mod = n - 1 := by
  have hM : 1 ≤ u128Mod := Nat.one_le_two_pow
  have he : n + (u128Mod - 1) = (n - 1) + u128Mod := by omega
  rw [he, Nat.add_mod_right]
  exact Nat.mod_eq_of_lt (by omega)

/-- With fuel at least the argument, the fueled recursion computes the
wrapped factorial for every positive in-range argument. -/
lemma factU_correct : ∀ f n : ℕ, 1 ≤ n → n ≤ f → n < u128Mod →
    factU f n = some (Nat.factorial n % u128Mod) := by
  intro f
  induction f with
  | zero => intro n h1 hf _; omega
  | succ f ih =>
    intro n h1 hf hlt
    by_cases he : n = 1
    · subst he
      simp [factU, Nat.factorial_one, Nat.mod_eq_of_lt (by norm_num [u128Mod] : 1 < u128Mod)]
    · rw [factU, if_neg he, wrap_pred n h1 hlt,
        ih (n - 1) (by omega) (by omega) (by omega)]
      simp only [Option.map_some']
      congr 1
      have hfac : Nat.factorial n = n * Nat.factorial (n - 1) := by
        conv_lhs => rw [show n = (n - 1) + 1 by omega]
        rw [Nat.factorial_succ]
        congr 1
        omega
      rw [hfac]
      conv_lhs => rw [Nat.mul_mod]
      conv_rhs => rw [Nat.mul_mod]
      rw [Nat.mod_mod_of_dvd (Nat.factorial (n - 1)) (dvd_refl u128Mod)]

/-- With fuel strictly below the argument, the fueled recursion runs out. -/
lemma factU_dead : ∀ f n : ℕ, 1 ≤ n → f < n → n < u128Mod → factU f n = none := by
  intro f
  induction f with
  | zero => intro n _ _ _; rfl
  | succ f ih =>
    intro n h1 hf hlt
    have he : n ≠ 1 := by omega
    rw [factU, if_neg he, wrap_pred n h1 hlt,
      ih (n - 1) (by omega) (by omega) (by omega)]
    rfl

/-- The source recursion at argument zero wraps to `2 ^ 128 - 1`; no fuel
below `2 ^ 128` can complete it. -/
lemma factU_zero_dead (f : ℕ) (hf : f < u128Mod) : factU f 0 = none := by
  cases f with
  | zero => rfl
  | succ g =>
    rw [factU, if_neg (by norm_num)]
    have hmod : (0 + (u128Mod - 1)) % u128Mod = u128Mod - 1 := by
      rw [Nat.zero_add]
      exact Nat.mod_eq_of_lt (by omega)
    rw [hmod, factU_dead g (u128Mod - 1) (by norm_num [u128Mod]) (by omega)
      (by omega)]
    rfl

/-- A source `factorial(n)` call on a positive in-range argument returns the
wrapped factorial. -/
lemma factorial_eq (n : ℕ) (h1 : 1 ≤ n) (hlt : n < u128Mod) :
    factorial n = some (Nat.factorial n % u128Mod) :=
  factU_correct (n + 1) n h1 (by omega) hlt

/-- Up to `n = 34` the wrapped factorial is the exact factorial. -/
lemma factorial_exact (n : ℕ) (h1 : 1 ≤ n) (h34 : n ≤ 34) :
    factorial n = some (Nat.factorial n) := by
  have h34M : (34 : ℕ) < u128Mod := by norm_num [u128Mod]
  have hlt : n < u128Mod := by omega
  rw [factorial_eq n h1 hlt]
  congr 1
  have hle : Nat.factorial n ≤ Nat.factorial 34 := Nat.factorial_le h34
  have hfl : Nat.factorial 34 < u128Mod := by decide
  exact Nat.mod_eq_of_lt (by omega)

/-- For orders up to 13 the `u128` coefficient pipeline computes the exact
binomial-times-factorial coefficient, which fits in `u128`. -/
lemma absCRecip_eval (m : ℕ) (h1 : 1 ≤ m) (h13 : m ≤ 13) :
    absCRecipU128 m = some (Nat.choose (2 * m) m * Nat.factorial (2 * m + 1)) ∧
      Nat.choose (2 * m) m * Nat.factorial (2 * m + 1) < u128Mod := by
  rw [Nat.choose_eq_factorial_div_factorial (by omega : m ≤ 2 * m)]
  interval_cases m <;> exact ⟨by decide, by decide⟩

/-- The clamp of `ell` agrees with the truncation to natural numbers. -/
lemma clamp_eq_toNat (v : ℤ) : (if 0 < v then v.toNat else 0) = v.toNat := by
  by_cases h : 0 < v
  · rw [if_pos h]
  · rw [if_neg h]
    omega

/-- For orders up to 13, `ell` computes the published formula with the
exact coefficient `c = C(2m, m) * (2m + 1)!`. -/
lemma ell_eval (ops : ScalarOps N) {n : ℕ} (a : Mat N (n + 1)) (m : ℕ)
    (h1 : 1 ≤ m) (h13 : m ≤ 13) :
    ell ops a m = some
      (if onenorm_matrix_power_nonm (matAbs a) (2 * m + 1) = 0 then 0
        else (⌈ops.log2 (onenorm_matrix_power_nonm (matAbs a) (2 * m + 1) /
          one_norm a / ((Nat.choose (2 * m) m * Nat.factorial (2 * m + 1) : ℕ) : N) /
          (2 : N) ^ (-(53 : ℤ))) / ((2 * m : ℕ) : N)⌉).toNat) := by
  by_cases hz : onenorm_matrix_power_nonm (matAbs a) (2 * m + 1) = 0
  · rw [ell_zero_of_est_zero ops a m hz, if_pos hz]
  · rw [if_neg hz]
    unfold ell
    rw [if_neg hz, (absCRecip_eval m h1 h13).1]
    simp only [Option.map_some']
    congr 1
    exact clamp_eq_toNat _

/-- The `ell` call of the order-13 branch always produces a value: its
factorial arguments are all positive, so the recursion completes. -/
lemma ell_thirteen_isSome (ops : ScalarOps N) {n : ℕ} (a : Mat N (n + 1)) :
    ∃ e, ell ops a 13 = some e :=
  ⟨_, ell_eval ops a 13 (by norm_num) (by norm_num)⟩

/-- The translated driver cascade for dimension at least 2 agrees with the
specification-side cascade: the memoised state threading computes the pure
quantities. -/
lemma exp_eq_specExpCascade (ops : ScalarOps N) {k : ℕ} (a : Mat N (k + 2)) :
    exp ops a = specExpCascade ops a := rfl

/-- The specification-side cascade factors through the candidate selector:
solve the chosen pair, then square. -/
lemma specExpCascade_eq_bind (ops : ScalarOps N) {n : ℕ} (a : Mat N (n + 1)) :
    specExpCascade ops a = (specChosen ops a).bind
      fun t => (solve_p_q t.1.1 t.1.2).map fun x => squareIter x t.2 := by
  unfold specExpCascade specChosen
  split_ifs with h1 h2 h3 h4
  · cases hs : solve_p_q (pade3UV a).1 (pade3UV a).2 <;> simp [hs, squareIter]
  · cases hs : solve_p_q (pade5UV a).1 (pade5UV a).2 <;> simp [hs, squareIter]
  · cases hs : solve_p_q (pade7UV a).1 (pade7UV a).2 <;> simp [hs, squareIter]
  · cases hs : solve_p_q (pade9UV a).1 (pade9UV a).2 <;> simp [hs, squareIter]
  · cases hE : ell ops (((2 : N) ^ (-(sInit ops a : ℤ))) • a) 13 <;> simp [hE]

/-- The candidate selector always selects a candidate. -/
lemma specChosen_isSome (ops : ScalarOps N) {n : ℕ} (a : Mat N (n + 1)) :
    ∃ t, specChosen ops a = some t := by
  unfold specChosen
  split_ifs with h1 h2 h3 h4
  · exact ⟨_, rfl⟩
  · exact ⟨_, rfl⟩
  · exact ⟨_, rfl⟩
  · exact ⟨_, rfl⟩
  · obtain ⟨e, hE⟩ := ell_thirteen_isSome ops (((2 : N) ^ (-(sInit ops a : ℤ))) • a)
    rw [hE]
    exact ⟨_, rfl⟩

/-
Claim theorems.
-/

/-- C3: `one_norm` returns the maximum over columns of the sum of absolute
values down the column (the matrix 1-norm), and on the concrete 3-by-3
matrix with rows `[-3, 5, 7]`, `[2, 6, 4]`, `[0, 2, 8]` it returns exactly
`19`. -/
theorem one_norm_is_max_abs_colsum :
    (∀ (n : ℕ) (m : Mat N (n + 1)),
      one_norm m = Finset.univ.sup' Finset.univ_nonempty (colSum m)) ∧
    one_norm (Matrix.of ![![(-3 : ℚ), 5, 7], ![2, 6, 4], ![0, 2, 8]]) = 19 := by
  constructor
  · intro n m
    exact one_norm_eq_sup m
  · have hfr : (List.finRange 3).tail = [1, 2] := by decide
    rw [one_norm, hfr]
    simp only [List.foldl_cons, List.foldl_nil]
    have h0 : colSum (Matrix.of ![![(-3 : ℚ), 5, 7], ![2, 6, 4], ![0, 2, 8]]) 0 = 5 := by
      norm_num [colSum, Fin.sum_univ_three]
    have h1 : colSum (Matrix.of ![![(-3 : ℚ), 5, 7], ![2, 6, 4], ![0, 2, 8]]) 1 = 13 := by
      norm_num [colSum, Fin.sum_univ_three]
    have h2 : colSum (Matrix.of ![![(-3 : ℚ), 5, 7], ![2, 6, 4], ![0, 2, 8]]) 2 = 19 := by
      norm_num [colSum, Fin.sum_univ_three]
    rw [h0, h1, h2]
    norm_num

/-- The behaviour of `solve_p_q`: on a nonsingular `V - U` it returns the
unique solution of `(V - U) * X = U + V`; on a singular `V - U` the solve
fails and the unwrap aborts. -/
lemma solve_p_q_lemma {n : ℕ} (u v : Mat N n) :
    ((v - u).det ≠ 0 →
      solve_p_q u v = some ((v - u).det⁻¹ • ((v - u).adjugate * (u + v))) ∧
      (v - u) * ((v - u).det⁻¹ • ((v - u).adjugate * (u + v))) = u + v ∧
      (∀ y, (v - u) * y = u + v →
        y = (v - u).det⁻¹ • ((v - u).adjugate * (u + v)))) ∧
    ((v - u).det = 0 → solve_p_q u v = none) := by
  constructor
  · intro hdet
    refine ⟨by rw [solve_p_q, luSolve, if_neg hdet], ?_, ?_⟩
    · rw [Matrix.mul_smul, ← Matrix.mul_assoc, Matrix.mul_adjugate, smul_mul_assoc,
        one_mul, smul_smul, inv_mul_cancel₀ hdet, one_smul]
    · intro y hy
      rw [← hy, ← Matrix.mul_assoc, Matrix.adjugate_mul, smul_mul_assoc, one_mul,
        smul_smul, inv_mul_cancel₀ hdet, one_smul]
  · intro hdet
    rw [solve_p_q, luSolve, if_pos hdet]

/-- C8: `solve_p_q(U, V)` returns the unique solution `X` of the linear
system `(V - U) * X = U + V` whenever `V - U` is nonsingular, and aborts
(the unwrap of the failed LU solve, observed as `none`) when `V - U` is
singular, rather than returning a degraded result. -/
theorem solve_p_q_correct {n : ℕ} (u v : Mat N n) :
    ((v - u).det ≠ 0 →
      solve_p_q u v = some ((v - u).det⁻¹ • ((v - u).adjugate * (u + v))) ∧
      (v - u) * ((v - u).det⁻¹ • ((v - u).adjugate * (u + v))) = u + v ∧
      (∀ y, (v - u) * y = u + v →
        y = (v - u).det⁻¹ • ((v - u).adjugate * (u + v)))) ∧
    ((v - u).det = 0 → solve_p_q u v = none) :=
  solve_p_q_lemma u v

/-- Witness for C8 at concrete inputs: the system with `V = I`, `U = 0` is
nonsingular and solved, the system with `V = U = 0` is singular and
aborts. -/
theorem solve_p_q_correct_witness :
    solve_p_q (0 : Mat ℚ 1) 0 = none ∧
    solve_p_q (0 : Mat ℚ 1) 1 =
      some (((1 : Mat ℚ 1) - 0).det⁻¹ •
        (((1 : Mat ℚ 1) - 0).adjugate * ((0 : Mat ℚ 1) + 1))) :=
  ⟨(solve_p_q_correct (0 : Mat ℚ 1) 0).2 (by simp),
    ((solve_p_q_correct (0 : Mat ℚ 1) 1).1 (by simp)).1⟩

/-- C10 (corrected): the recursive `factorial` terminates for every
argument `n ≥ 1` in range and returns the factorial wrapped modulo
`2 ^ 128`, which is `n!` exactly up to `n = 34` (at `n = 35` the `u128`
product wraps, so the unrestricted claim fails); every call `ell` makes for
order `m ≥ 1` (arguments `2m`, `m`, `2m - m`, `2m + 1`) satisfies the
positivity precondition; for `m ≤ 13` the products
`C(2m, m) * (2m + 1)!` computed in `u128` do not overflow; totality does
not extend to the argument `0`, whose recursion wraps through the unsigned
subtraction `0 - 1` and completes within no fuel below `2 ^ 128`. -/
theorem factorial_props :
    (∀ nn : ℕ, 1 ≤ nn → nn < u128Mod →
      factorial nn = some (Nat.factorial nn % u128Mod)) ∧
    (∀ nn : ℕ, 1 ≤ nn → nn ≤ 34 → factorial nn = some (Nat.factorial nn)) ∧
    (∀ m : ℕ, 1 ≤ m → 1 ≤ 2 * m ∧ 1 ≤ m ∧ 1 ≤ 2 * m - m ∧ 1 ≤ 2 * m + 1) ∧
    (∀ m : ℕ, 1 ≤ m → m ≤ 13 →
      absCRecipU128 m = some (Nat.choose (2 * m) m * Nat.factorial (2 * m + 1)) ∧
      Nat.choose (2 * m) m * Nat.factorial (2 * m + 1) < u128Mod) ∧
    (∀ f : ℕ, f < u128Mod → factU f 0 = none) := by
  refine ⟨factorial_eq, factorial_exact, ?_, absCRecip_eval, factU_zero_dead⟩
  intro m hm
  omega

/-- Counterexample for C10 as stated: at `n = 35` the `u128` multiplication
wraps, so `factorial` does not return `35!`. -/
theorem factorial_cex : factorial 35 ≠ some (Nat.factorial 35) := by decide

/-- Witness for C10 at concrete inputs. -/
theorem factorial_props_witness :
    factorial 5 = some (Nat.factorial 5 % u128Mod) ∧ factU 7 0 = none :=
  ⟨factorial_props.1 5 (by norm_num) (by norm_num [u128Mod]),
    factorial_props.2.2.2.2 7 (by norm_num [u128Mod])⟩

/-- C2 (corrected): `ell` returns `0` whenever the estimated 1-norm of
`|A| ^ (2m + 1)` is zero, and the power estimator returns exactly `0` on the
zero matrix; for orders `1 ≤ m ≤ 13` (where the `u128` coefficient does not
wrap; at `m = 14` it does, see the counterexample) `ell` returns
`max(0, ceil(log2(alpha / u) / (2m)))` with
`alpha = (est / one_norm A) / c`, `c = C(2m, m) * (2m + 1)!` and
`u = 2 ^ (-53)`. -/
theorem ell_spec (ops : ScalarOps N) {n : ℕ} (a : Mat N (n + 1)) (m : ℕ)
    (h1 : 1 ≤ m) :
    onenorm_matrix_power_nonm (0 : Mat N (n + 1)) (2 * m + 1) = 0 ∧
    (onenorm_matrix_power_nonm (matAbs a) (2 * m + 1) = 0 → ell ops a m = some 0) ∧
    (m ≤ 13 → ell ops a m = some
      (if onenorm_matrix_power_nonm (matAbs a) (2 * m + 1) = 0 then 0
        else (⌈ops.log2 (onenorm_matrix_power_nonm (matAbs a) (2 * m + 1) /
          one_norm a / ((Nat.choose (2 * m) m * Nat.factorial (2 * m + 1) : ℕ) : N) /
          (2 : N) ^ (-(53 : ℤ))) / ((2 * m : ℕ) : N)⌉).toNat)) :=
  ⟨onenorm_pow_zero_matrix (2 * m + 1) (by omega),
    ell_zero_of_est_zero ops a m,
    fun h13 => ell_eval ops a m h1 h13⟩

/-- The absolute value of the identity is the identity. -/
lemma matAbs_one {n : ℕ} : matAbs (1 : Mat ℚ n) = 1 := by
  ext i j
  by_cases hij : i = j
  · subst hij
    simp [matAbs, Matrix.one_apply_eq]
  · simp [matAbs, Matrix.one_apply_ne hij]

/-- The power estimator on the 1-by-1 identity returns 1. -/
lemma onenorm_pow_one (p : ℕ) :
    onenorm_matrix_power_nonm (1 : Mat ℚ 1) p = 1 := by
  unfold onenorm_matrix_power_nonm
  have hf : (fun v : Fin 1 → ℚ => Matrix.mulVec (1 : Mat ℚ 1).transpose v) = id := by
    funext v
    simp [Matrix.transpose_one, Matrix.one_mulVec]
  rw [hf, Function.iterate_id]
  exact Finset.sup'_const Finset.univ_nonempty (1 : ℚ)

/-- The 1-norm of the 1-by-1 identity is 1. -/
lemma one_norm_one_dim1 : one_norm (1 : Mat ℚ 1) = 1 := by
  rw [one_norm]
  have ht : (List.finRange 1).tail = [] := rfl
  rw [ht, List.foldl_nil]
  simp [colSum, Fin.sum_univ_one, Matrix.one_apply_eq]

/-- Counterexample for C2 as stated: at order `m = 14` the `u128` product
`C(28, 14) * 29!` wraps modulo `2 ^ 128`, so `ell` computes with the wrapped
coefficient and its result differs from the claimed formula built on the
exact coefficient.  The scalar collaborator instantiated here is a steep
linear logarithm that separates the two coefficients; the genuine `f64`
logarithm also separates them at other inputs, since the wrapped
coefficient is about 24.6 times smaller than the exact one. -/
theorem ell_spec_cex :
    ell sepOps (1 : Mat ℚ 1) 14 ≠ some
      (if onenorm_matrix_power_nonm (matAbs (1 : Mat ℚ 1)) (2 * 14 + 1) = 0 then 0
        else (⌈sepOps.log2 (onenorm_matrix_power_nonm (matAbs (1 : Mat ℚ 1)) (2 * 14 + 1) /
          one_norm (1 : Mat ℚ 1) /
          ((Nat.choose (2 * 14) 14 * Nat.factorial (2 * 14 + 1) : ℕ) : ℚ) /
          (2 : ℚ) ^ (-(53 : ℤ))) / ((2 * 14 : ℕ) : ℚ)⌉).toNat) := by
  have hch : Nat.choose (2 * 14) 14 = 40116600 := by
    rw [Nat.choose_eq_factorial_div_factorial (by norm_num : (14 : ℕ) ≤ 2 * 14)]
    decide
  have hest : onenorm_matrix_power_nonm (matAbs (1 : Mat ℚ 1)) (2 * 14 + 1) = 1 := by
    rw [matAbs_one]
    exact onenorm_pow_one (2 * 14 + 1)
  have habs : absCRecipU128 14 =
      some 14419062277119663966269818193831788544 := by decide
  have hL : ell sepOps (1 : Mat ℚ 1) 14 = some
      ((⌈sepOps.log2 ((1 : ℚ) / 1 /
        ((14419062277119663966269818193831788544 : ℕ) : ℚ) /
        (2 : ℚ) ^ (-(53 : ℤ))) / ((2 * 14 : ℕ) : ℚ)⌉).toNat) := by
    unfold ell
    rw [hest, if_neg one_ne_zero, habs]
    simp only [Option.map_some']
    rw [one_norm_one_dim1]
    congr 1
    exact clamp_eq_toNat _
  have hf29 : Nat.factorial (2 * 14 + 1) = 8841761993739701954543616000000 := by
    decide
  rw [hL, hest, if_neg one_ne_zero, one_norm_one_dim1, hch, hf29]
  simp only [sepOps, Ne, Option.some_inj]
  have hA : ⌈(2 : ℚ) ^ (200 : ℕ) * ((1 : ℚ) / 1 /
      ((14419062277119663966269818193831788544 : ℕ) : ℚ) /
      (2 : ℚ) ^ (-(53 : ℤ))) / ((2 * 14 : ℕ) : ℚ)⌉ =
      (35850387485302439784953264686525305481 : ℤ) := by
    rw [Int.ceil_eq_iff]
    constructor <;> norm_num
  have hB : ⌈(2 : ℚ) ^ (200 : ℕ) * ((1 : ℚ) / 1 /
      ((40116600 * 8841761993739701954543616000000 : ℕ) : ℚ) /
      (2 : ℚ) ^ (-(53 : ℤ))) / ((2 * 14 : ℕ) : ℚ)⌉ =
      (1457363650826466180747652674464931271 : ℤ) := by
    rw [Int.ceil_eq_iff]
    constructor <;> norm_num
  intro hcontra
  rw [hA, hB] at hcontra
  exact absurd hcontra (by decide)

/-- Witness for C2 at a concrete input: the zero matrix short-circuits. -/
theorem ell_spec_witness : ell ratOps (0 : Mat ℚ 1) 3 = some 0 :=
  (ell_spec ratOps (0 : Mat ℚ 1) 3 (by norm_num)).2.1
    (by rw [matAbs_zero]; exact onenorm_pow_zero_matrix (2 * 3 + 1) (by norm_num))

/-- C1: for every square matrix of dimension at least 2, `exp` follows the
ordered decision cascade with the first acceptable candidate winning (order
3, 5, 7, 9 with their thresholds and `ell` checks, then the scaled order 13
with `s = sInit + ell(A * 2 ^ (-sInit), 13)` followed by exactly `s`
squarings), and a 1-by-1 matrix takes the scalar exponential path
immediately. -/
theorem exp_follows_cascade (ops : ScalarOps N) :
    (∀ (k : ℕ) (a : Mat N (k + 2)), exp ops a = specExpCascade ops a) ∧
    (∀ b : Mat N 1, exp ops b = some (b.map ops.expScalar)) :=
  ⟨fun _ a => exp_eq_specExpCascade ops a, fun _ => rfl⟩

/-- Solving the system whose two sides are the same nonzero multiple of the
identity yields the identity. -/
lemma solve_smul_one {n : ℕ} (c : N) (hc : c ≠ 0) :
    solve_p_q (0 : Mat N n) (c • (1 : Mat N n)) = some 1 := by
  have hdet : ((c • (1 : Mat N n)) - 0).det ≠ 0 := by
    rw [sub_zero, Matrix.det_smul, Matrix.det_one, mul_one]
    exact pow_ne_zero _ hc
  obtain ⟨hsol, _, huniq⟩ := (solve_p_q_lemma (0 : Mat N n) (c • 1)).1 hdet
  have h1 : ((c • (1 : Mat N n)) - 0) * 1 = 0 + c • 1 := by
    rw [sub_zero, mul_one, zero_add]
  rw [hsol, ← huniq 1 h1]

/-- C4: `exp` of the `D`-by-`D` zero matrix is exactly the identity for
every `D ≥ 1`: for `D ≥ 2` the cascade selects the order-3 candidate with
`U = 0`, `V = 120 * I`, whose solve yields the identity; for `D = 1` the
scalar path applies the scalar exponential to `0`.  The hypotheses pin the
collaborator behaviour `powf(0, e) = 0` and `exp(0) = 1` used on this
input. -/
theorem exp_zero_eq_one (ops : ScalarOps N)
    (hp4 : ops.powf 0 ((0.25 : ℚ) : N) = 0)
    (hp6 : ops.powf 0 ((1 / 6 : ℚ) : N) = 0)
    (he : ops.expScalar 0 = 1) :
    ∀ k : ℕ, exp ops (0 : Mat N (k + 1)) = some 1 := by
  intro k
  cases k with
  | zero =>
    show some ((0 : Mat N 1).map ops.expScalar) = some 1
    congr 1
    ext i j
    have hij : i = j := Subsingleton.elim i j
    subst hij
    simp [Matrix.map_apply, he, Matrix.one_apply_eq]
  | succ k' =>
    rw [exp_eq_specExpCascade]
    have hP2 : P2 (0 : Mat N (k' + 2)) = 0 := by simp [P2]
    have hP4 : P4 (0 : Mat N (k' + 2)) = 0 := by simp [P4, hP2]
    have hP6 : P6 (0 : Mat N (k' + 2)) = 0 := by simp [P6, hP4, hP2]
    have hd4 : d4v ops (0 : Mat N (k' + 2)) = 0 := by
      rw [d4v, hP4, one_norm_zero, hp4]
    have hd6 : d6v ops (0 : Mat N (k' + 2)) = 0 := by
      rw [d6v, hP6, one_norm_zero, hp6]
    have heta1 : eta1v ops (0 : Mat N (k' + 2)) = 0 := by
      rw [eta1v, hd4, hd6, max_self]
    have hell3 : ell ops (0 : Mat N (k' + 2)) 3 = some 0 :=
      ell_zero_of_est_zero ops 0 3
        (by rw [matAbs_zero]; exact onenorm_pow_zero_matrix (2 * 3 + 1) (by norm_num))
    have hcond : eta1v ops (0 : Mat N (k' + 2)) < ((1.495585217958292e-2 : ℚ) : N) := by
      rw [heta1]
      exact Rat.cast_pos.mpr (by norm_num)
    rw [specExpCascade, if_pos ⟨hcond, hell3⟩]
    have hU : (pade3UV (0 : Mat N (k' + 2))).1 = 0 := by
      simp [pade3UV, hP2]
    have hV : (pade3UV (0 : Mat N (k' + 2))).2 = (120 : N) • (1 : Mat N (k' + 2)) := by
      simp [pade3UV, hP2]
    rw [hU, hV]
    exact solve_smul_one (120 : N) (by norm_num)

/-- Witness for C4 on the 2-by-2 zero matrix with a concrete collaborator. -/
theorem exp_zero_eq_one_witness : exp ratOps (0 : Mat ℚ 2) = some 1 :=
  exp_zero_eq_one ratOps (by simp [ratOps]) (by simp [ratOps]) rfl 1

/-- C5 (corrected): `exp` is total for dimension 1 (scalar path); for
dimension 0 the call panics inside `one_norm` (`col_sums[0]` indexes an
empty vector), observed as `none`, so totality does not include `D = 0`;
for dimension at least 2 the call returns a value exactly unless the LU
solve of the selected Pade denominator `V - U` fails on a singular system,
which the source unwraps (fail-fast). -/
theorem exp_totality (ops : ScalarOps N) :
    (∀ b : Mat N 1, exp ops b = some (b.map ops.expScalar)) ∧
    (∀ a : Mat N 0, exp ops a = none) ∧
    (∀ (k : ℕ) (a : Mat N (k + 2)),
      exp ops a = none ↔
        ∃ t, specChosen ops a = some t ∧ (t.1.2 - t.1.1).det = 0) := by
  refine ⟨fun _ => rfl, fun _ => rfl, ?_⟩
  intro k a
  rw [exp_eq_specExpCascade, specExpCascade_eq_bind]
  obtain ⟨t, ht⟩ := specChosen_isSome ops a
  rw [ht]
  constructor
  · intro hnone
    cases hs : solve_p_q t.1.1 t.1.2 with
    | some x =>
      rw [Option.some_bind, hs] at hnone
      simp at hnone
    | none =>
      refine ⟨t, rfl, ?_⟩
      by_contra hdet
      obtain ⟨hsol, -, -⟩ := (solve_p_q_lemma t.1.1 t.1.2).1 hdet
      rw [hsol] at hs
      exact absurd hs (by simp)
  · rintro ⟨t', ht', hdet⟩
    obtain rfl : t = t' := Option.some_inj.mp ht'
    rw [Option.some_bind, (solve_p_q_lemma t.1.1 t.1.2).2 hdet]
    rfl

/-- Counterexample for C5 as stated: at dimension 0 the call does not
return a result (the `col_sums[0]` read of `one_norm` panics). -/
theorem exp_totality_cex : exp ratOps (0 : Mat ℚ 0) = none := rfl

/-- Witness for C5 at a concrete dimension-1 input. -/
theorem exp_totality_witness :
    exp ratOps (1 : Mat ℚ 1) = some ((1 : Mat ℚ 1).map ratOps.expScalar) :=
  (exp_totality ratOps).1 1

open ExpmPadeHelper in
/-- C6: within one `exp` call each cached even power is computed at most
once, on first access, from the next-lower cached even powers
(`A4 = A2 * A2`, `A6 = A4 * A2`, `A8 = A6 * A2`, `A10 = A6 * A4`); a cached
power is returned as-is with the state untouched (never recomputed or
mutated), every accessor leaves its own cache filled with the returned
value, consistency is preserved, and a repeated access returns the same
cached value with an unchanged state. -/
theorem power_caches_once (ops : ScalarOps N) {n : ℕ}
    (h : ExpmPadeHelper N (n + 1)) (hI : Inv ops h) :
    ((∀ m, h.a2 = some m → a2Acc h = (m, h)) ∧
     (∀ m, h.a4 = some m → a4Acc h = (m, h)) ∧
     (∀ m, h.a6 = some m → a6Acc h = (m, h)) ∧
     (∀ m, h.a8 = some m → a8Acc h = (m, h)) ∧
     (∀ m, h.a10 = some m → a10Acc h = (m, h))) ∧
    ((a2Acc h).1 = h.a * h.a ∧
     (a4Acc h).1 = P2 h.a * P2 h.a ∧
     (a6Acc h).1 = P4 h.a * P2 h.a ∧
     (a8Acc h).1 = P6 h.a * P2 h.a ∧
     (a10Acc h).1 = P6 h.a * P4 h.a) ∧
    ((a2Acc h).2.a2 = some ((a2Acc h).1) ∧
     (a4Acc h).2.a4 = some ((a4Acc h).1) ∧
     (a6Acc h).2.a6 = some ((a6Acc h).1) ∧
     (a8Acc h).2.a8 = some ((a8Acc h).1) ∧
     (a10Acc h).2.a10 = some ((a10Acc h).1)) ∧
    (Inv ops (a2Acc h).2 ∧ Inv ops (a4Acc h).2 ∧ Inv ops (a6Acc h).2 ∧
     Inv ops (a8Acc h).2 ∧ Inv ops (a10Acc h).2) ∧
    (a2Acc ((a2Acc h).2) = ((a2Acc h).1, (a2Acc h).2) ∧
     a4Acc ((a4Acc h).2) = ((a4Acc h).1, (a4Acc h).2) ∧
     a6Acc ((a6Acc h).2) = ((a6Acc h).1, (a6Acc h).2) ∧
     a8Acc ((a8Acc h).2) = ((a8Acc h).1, (a8Acc h).2) ∧
     a10Acc ((a10Acc h).2) = ((a10Acc h).1, (a10Acc h).2)) :=
  ⟨⟨fun m e => a2Acc_hit h m e, fun m e => a4Acc_hit h m e,
    fun m e => a6Acc_hit h m e, fun m e => a8Acc_hit h m e,
    fun m e => a10Acc_hit h m e⟩,
   ⟨(a2Acc_good ops h hI).1, (a4Acc_good ops h hI).1, (a6Acc_good ops h hI).1,
    (a8Acc_good ops h hI).1, (a10Acc_good ops h hI).1⟩,
   ⟨a2Acc_caches h, a4Acc_caches h, a6Acc_caches h, a8Acc_caches h,
    a10Acc_caches h⟩,
   ⟨(a2Acc_good ops h hI).2.1, (a4Acc_good ops h hI).2.1,
    (a6Acc_good ops h hI).2.1, (a8Acc_good ops h hI).2.1,
    (a10Acc_good ops h hI).2.1⟩,
   ⟨a2Acc_hit _ _ (a2Acc_caches h), a4Acc_hit _ _ (a4Acc_caches h),
    a6Acc_hit _ _ (a6Acc_caches h), a8Acc_hit _ _ (a8Acc_caches h),
    a10Acc_hit _ _ (a10Acc_caches h)⟩⟩

open ExpmPadeHelper in
/-- Witness for C6 on a fresh helper over a concrete matrix. -/
theorem power_caches_once_witness :
    (a2Acc (new (1 : Mat ℚ 1) true)).1 =
      (new (1 : Mat ℚ 1) true).a * (new (1 : Mat ℚ 1) true).a :=
  (power_caches_once ratOps (new (1 : Mat ℚ 1) true)
    (inv_new ratOps (1 : Mat ℚ 1) true)).2.1.1

namespace ExpmPadeHelper

/-- A cached exact `d4` value makes the loose accessor return it with the
state untouched. -/
lemma d4_loose_hit (ops : ScalarOps N) {n : ℕ} (h : ExpmPadeHelper N (n + 1))
    (v : N) (e : h.d4_exact = some v) : d4_loose ops h = (v, h) := by
  cases eu : h.use_exact_norm with
  | false => simp [d4_loose, eu, e]
  | true => simp [d4_loose, d4_tight, eu, e]

/-- A cached exact `d6` value makes the loose accessor return it with the
state untouched. -/
lemma d6_loose_hit (ops : ScalarOps N) {n : ℕ} (h : ExpmPadeHelper N (n + 1))
    (v : N) (e : h.d6_exact = some v) : d6_loose ops h = (v, h) := by
  cases eu : h.use_exact_norm with
  | false => simp [d6_loose, eu, e]
  | true => simp [d6_loose, d6_tight, eu, e]

/-- A cached exact `d8` value makes the loose accessor return it with the
state untouched. -/
lemma d8_loose_hit (ops : ScalarOps N) {n : ℕ} (h : ExpmPadeHelper N (n + 1))
    (v : N) (e : h.d8_exact = some v) : d8_loose ops h = (v, h) := by
  cases eu : h.use_exact_norm with
  | false => simp [d8_loose, eu, e]
  | true => simp [d8_loose, d8_tight, eu, e]

/-- A cached exact `d10` value makes the loose accessor return it with the
state untouched. -/
lemma d10_loose_hit (ops : ScalarOps N) {n : ℕ} (h : ExpmPadeHelper N (n + 1))
    (v : N) (e : h.d10_exact = some v) : d10_loose ops h = (v, h) := by
  cases eu : h.use_exact_norm with
  | false => simp [d10_loose, eu, e]
  | true => simp [d10_loose, d10_tight, eu, e]

end ExpmPadeHelper

open ExpmPadeHelper in
/-- C7: each loose norm accessor returns the tight accessor result whenever
`use_exact_norm` is set, returns an already-cached exact value as-is (the
one-way upgrade: an existing exact value supersedes the approximate cache),
and on every consistent state both loose and tight accessors return the
`2k`-th root, via the collaborator power, of the 1-norm of the cached power
`A ^ (2k)`. -/
theorem loose_tight_agree (ops : ScalarOps N) {n : ℕ}
    (h : ExpmPadeHelper N (n + 1)) (hI : Inv ops h) :
    (h.use_exact_norm = true →
      d4_loose ops h = d4_tight ops h ∧ d6_loose ops h = d6_tight ops h ∧
      d8_loose ops h = d8_tight ops h ∧ d10_loose ops h = d10_tight ops h) ∧
    ((∀ v, h.d4_exact = some v → d4_loose ops h = (v, h)) ∧
     (∀ v, h.d6_exact = some v → d6_loose ops h = (v, h)) ∧
     (∀ v, h.d8_exact = some v → d8_loose ops h = (v, h)) ∧
     (∀ v, h.d10_exact = some v → d10_loose ops h = (v, h))) ∧
    ((d4_loose ops h).1 = ops.powf (one_norm (P4 h.a)) ((0.25 : ℚ) : N) ∧
     (d4_tight ops h).1 = ops.powf (one_norm (P4 h.a)) ((0.25 : ℚ) : N) ∧
     (d6_loose ops h).1 = ops.powf (one_norm (P6 h.a)) ((1 / 6 : ℚ) : N) ∧
     (d6_tight ops h).1 = ops.powf (one_norm (P6 h.a)) ((1 / 6 : ℚ) : N) ∧
     (d8_loose ops h).1 = ops.powf (one_norm (P8 h.a)) ((1 / 8 : ℚ) : N) ∧
     (d8_tight ops h).1 = ops.powf (one_norm (P8 h.a)) ((1 / 8 : ℚ) : N) ∧
     (d10_loose ops h).1 = ops.powf (one_norm (P10 h.a)) ((1 / 10 : ℚ) : N) ∧
     (d10_tight ops h).1 = ops.powf (one_norm (P10 h.a)) ((1 / 10 : ℚ) : N)) :=
  ⟨fun he => ⟨by simp [d4_loose, he], by simp [d6_loose, he],
      by simp [d8_loose, he], by simp [d10_loose, he]⟩,
   ⟨fun v e => d4_loose_hit ops h v e, fun v e => d6_loose_hit ops h v e,
    fun v e => d8_loose_hit ops h v e, fun v e => d10_loose_hit ops h v e⟩,
   ⟨(d4_loose_good ops h hI).1, (d4_tight_good ops h hI).1,
    (d6_loose_good ops h hI).1, (d6_tight_good ops h hI).1,
    (d8_loose_good ops h hI).1, (d8_tight_good ops h hI).1,
    (d10_loose_good ops h hI).1, (d10_tight_good ops h hI).1⟩⟩

open ExpmPadeHelper in
/-- Witness for C7 on a fresh helper over a concrete matrix. -/
theorem loose_tight_agree_witness :
    (d4_loose ratOps (new (1 : Mat ℚ 1) true)).1 =
      ratOps.powf (one_norm (P4 (new (1 : Mat ℚ 1) true).a)) ((0.25 : ℚ) : ℚ) :=
  (loose_tight_agree ratOps (new (1 : Mat ℚ 1) true)
    (inv_new ratOps (1 : Mat ℚ 1) true)).2.2.1

/-- C9: the dimension-compatibility checks of `spmm_prealloc` and
`spadd_prealloc` implement the exact transpose table (each `Transpose` tag
swaps the rows and columns of its operand in the checks), run before any
arithmetic, and a violated check aborts the call with an assertion failure
rather than a typed error or a silent computation. -/
theorem sparse_dim_checks :
    (∀ c a b : Shape,
      (assert_compatible_spmm_dims c (.NoOp a) (.NoOp b) = true ↔
        c.nrows = a.nrows ∧ c.ncols = b.ncols ∧ a.ncols = b.nrows) ∧
      (assert_compatible_spmm_dims c (.Transpose a) (.NoOp b) = true ↔
        c.nrows = a.ncols ∧ c.ncols = b.ncols ∧ a.nrows = b.nrows) ∧
      (assert_compatible_spmm_dims c (.NoOp a) (.Transpose b) = true ↔
        c.nrows = a.nrows ∧ c.ncols = b.nrows ∧ a.ncols = b.ncols) ∧
      (assert_compatible_spmm_dims c (.Transpose a) (.Transpose b) = true ↔
        c.nrows = a.ncols ∧ c.ncols = b.nrows ∧ a.nrows = b.ncols)) ∧
    (∀ c a : Shape,
      (assert_compatible_spadd_dims c (.NoOp a) = true ↔
        c.nrows = a.nrows ∧ c.ncols = a.ncols) ∧
      (assert_compatible_spadd_dims c (.Transpose a) = true ↔
        c.nrows = a.ncols ∧ c.ncols = a.nrows)) ∧
    (∀ (c : Shape) (oa ob : Op Shape) (arith : Except OperationErrorKind Unit),
      (assert_compatible_spmm_dims c oa ob = false →
        spmm_prealloc c oa ob arith = .panicked) ∧
      (assert_compatible_spmm_dims c oa ob = true →
        spmm_prealloc c oa ob arith ≠ .panicked)) ∧
    (∀ (c : Shape) (oa : Op Shape) (arith : Except OperationErrorKind Unit),
      (assert_compatible_spadd_dims c oa = false →
        spadd_prealloc c oa arith = .panicked) ∧
      (assert_compatible_spadd_dims c oa = true →
        spadd_prealloc c oa arith ≠ .panicked)) := by
  refine ⟨?_, ?_, ?_, ?_⟩
  · intro c a b
    refine ⟨?_, ?_, ?_, ?_⟩ <;>
      simp [assert_compatible_spmm_dims, Bool.and_eq_true, and_assoc]
  · intro c a
    constructor <;> simp [assert_compatible_spadd_dims, Bool.and_eq_true]
  · intro c oa ob arith
    constructor
    · intro hfail
      simp [spmm_prealloc, hfail]
    · intro hpass
      cases arith with
      | ok u => simp [spmm_prealloc, hpass]
      | error e => simp [spmm_prealloc, hpass]
  · intro c oa arith
    constructor
    · intro hfail
      simp [spadd_prealloc, hfail]
    · intro hpass
      cases arith with
      | ok u => simp [spadd_prealloc, hpass]
      | error e => simp [spadd_prealloc, hpass]

/-- Witness for C9 at concrete shapes: a compatible multiply does not
abort, an incompatible add aborts. -/
theorem sparse_dim_checks_witness :
    spmm_prealloc ⟨2, 3⟩ (.NoOp ⟨2, 4⟩) (.NoOp ⟨4, 3⟩) (.ok ()) ≠ .panicked ∧
    spadd_prealloc ⟨2, 3⟩ (.NoOp ⟨9, 9⟩) (.ok ()) = .panicked :=
  ⟨(sparse_dim_checks.2.2.1 ⟨2, 3⟩ (.NoOp ⟨2, 4⟩) (.NoOp ⟨4, 3⟩) (.ok ())).2
      (by decide),
    (sparse_dim_checks.2.2.2 ⟨2, 3⟩ (.NoOp ⟨9, 9⟩) (.ok ())).1 (by decide)⟩

end Nalg
